import Mathlib

/-! # Verification of `color.go` (package `main` of frosty)

A shallow embedding of the colour type of the renderer and of its hex parser.

Modelling conventions.

* A Go `string` / `[]byte` is the list of its bytes, each byte a natural number
  (`GoString`); in a Go string every byte is below 256, and no theorem here needs that
  bound.  `len` is `List.length` (a count of bytes, as in Go), a slice expression
  `s[lo:hi]` is `slice`, which is `none` where Go panics.
* A function that may panic returns an `Option`: `none` is the run-time panic.
* A Go `error` is `Option GoError`, `none` being `nil`.
* The channels are modelled twice.  `Color` has exact rational channels: it is the
  reading "with channel arithmetic taken exactly" under which the parser's results, the
  scalar product and the parse-then-display round trip are stated.  `Color64` has
  `float64` channels (`F64`: IEEE 754 binary64 with NaN, infinities, signed zeros and
  rounding to nearest, ties to even): it is the arithmetic the source performs, and the
  properties of `Add`, `Mul` and of the display conversion are stated on it.
* `uint64` arithmetic is on `Nat` with an explicit `% 2 ^ 64`.
* `strconv.ParseUint`, `strings.HasPrefix` and `fmt.Errorf` belong to the Go standard
  library, not to this repository; they are modelled after the library's own code.
-/

namespace Frosty

/-! ## Strings and errors -/

/-- A Go string (or byte slice): the list of its bytes. -/
abbrev GoString := List Nat

/-- The bytes of a literal: its UTF-8 encoding, as Go stores string constants. -/
def bytes (s : String) : GoString :=
  (s.data.flatMap String.utf8EncodeChar).map UInt8.toNat

/-- The two sentinel errors of package `strconv` that `ParseUint` wraps. -/
inductive NumErrKind where
  | ErrSyntax
  | ErrRange
  deriving DecidableEq, Repr

/-- The error values that occur in `color.go`. -/
inductive GoError where
  /-- The value built by `fmt.Errorf`, identified by its message. -/
  | errorf (msg : GoString)
  /-- The value `&strconv.NumError{Func, Num, Err}`. -/
  | numError (func : GoString) (num : GoString) (err : NumErrKind)
  deriving DecidableEq, Repr

/-- The slice expression `s[lo:hi]`; Go panics unless `lo ≤ hi ≤ len(s)`. -/
def slice (s : GoString) (lo hi : Nat) : Option GoString :=
  if lo ≤ hi ∧ hi ≤ s.length then some ((s.take hi).drop lo) else none

/-- Go's `strings.HasPrefix`: `len(s) >= len(prefix) && s[:len(prefix)] == prefix`. -/
def HasPrefix (s pre : GoString) : Bool :=
  decide (pre.length ≤ s.length) && (s.take pre.length == pre)

/-! ## `strconv.ParseUint(s, 16, 32)` -/

/-- The constant `maxUint64` of package `strconv`. -/
def maxUint64 : Nat := 2 ^ 64 - 1

/-- The helper `lower` of package `strconv`: `c | ('x' - 'X')`. -/
def lower (c : Nat) : Nat := c ||| (120 - 88)

/-- The digit classification inside the loop of `strconv.ParseUint`, for a call whose
`base` argument is not 0 (so the underscore case is off): the digit value of the byte,
or `none` where the loop takes its `default:` branch. -/
def digitOf (c : Nat) : Option Nat :=
  if 48 ≤ c ∧ c ≤ 57 then some (c - 48)
  else if 97 ≤ lower c ∧ lower c ≤ 122 then some (lower c - 97 + 10)
  else none

/-- The error `syntaxError("ParseUint", s0)` of package `strconv`. -/
def syntaxError (s0 : GoString) : GoError :=
  GoError.numError (bytes "ParseUint") s0 NumErrKind.ErrSyntax

/-- The error `rangeError("ParseUint", s0)` of package `strconv`. -/
def rangeError (s0 : GoString) : GoError :=
  GoError.numError (bytes "ParseUint") s0 NumErrKind.ErrRange

/-- The loop `for _, c := range []byte(s)` of `strconv.ParseUint` with `base` and
`bitSize` given: `s0` is the whole argument (for the error value), the list is what
remains to be read, `n` is the accumulator. -/
def parseLoop (base bitSize : Nat) (s0 : GoString) : GoString → Nat → Nat × Option GoError
  | [], n => (n, none)
  | c :: rest, n =>
    match digitOf c with
    | none => (0, some (syntaxError s0))
    | some d =>
      if d ≥ base then (0, some (syntaxError s0))
      else if n ≥ maxUint64 / base + 1 then
        ((2 ^ bitSize - 1) % 2 ^ 64, some (rangeError s0))
      else
        let n' := (n * base) % 2 ^ 64
        let n1 := (n' + d) % 2 ^ 64
        if n1 < n' ∨ n1 > (2 ^ bitSize - 1) % 2 ^ 64 then
          ((2 ^ bitSize - 1) % 2 ^ 64, some (rangeError s0))
        else parseLoop base bitSize s0 rest n1

/-- The call `strconv.ParseUint(s, 16, 32)` made by `ParseHexColor`, after the Go
standard library: the empty string is a syntax error, then the digit loop runs with
`base = 16` and `bitSize = 32`.  (The prefix and underscore handling of the library
function belongs to `base == 0` only and is not reached by this call.)  The result is
Go's pair `(uint64, error)`. -/
def ParseUint (s : GoString) : Nat × Option GoError :=
  if s = [] then (0, some (syntaxError s))
  else parseLoop 16 32 s s 0

/-! ## The colour type -/

/-- The struct `Color` with its channels taken as exact rationals. -/
structure Color where
  R : ℚ
  G : ℚ
  B : ℚ
  deriving DecidableEq, Repr

/-- The variable `Black`. -/
def Black : Color := ⟨0, 0, 0⟩

/-- The variable `Pink`. -/
def Pink : Color := ⟨1, 0, 1 / 2⟩

/-- The variable `Yellow`. -/
def Yellow : Color := ⟨1 / 2, 1 / 2, 0⟩

/-- The method `MulS` in exact arithmetic. -/
def Color.MulS (c1 : Color) (f : ℚ) : Color :=
  { R := c1.R * f, G := c1.G * f, B := c1.B * f }

/-- The function `clamp` in exact arithmetic. -/
def clamp (f : ℚ) : ℚ :=
  if f < 0 then 0
  else if f > 1 then 1
  else f

/-- The conversion `uint32(x)` of an exact value: the fraction is discarded
(truncation toward zero).  For a value that `uint32` cannot hold Go leaves the result to
the implementation; here such a value wraps modulo `2 ^ 32`. -/
def toUint32 (x : ℚ) : Nat :=
  ((if 0 ≤ x then ⌊x⌋ else ⌈x⌉) % 2 ^ 32).toNat

/-- The four results `(r, g, b, a)` of the method `RGBA`. -/
structure RGBAResult where
  r : Nat
  g : Nat
  b : Nat
  a : Nat
  deriving DecidableEq, Repr

/-- The method `RGBA` in exact arithmetic (`Color64.RGBA` is the method in `float64`
arithmetic). -/
def Color.RGBA (c : Color) : RGBAResult :=
  { r := toUint32 (clamp c.R * 255)
    g := toUint32 (clamp c.G * 255)
    b := toUint32 (clamp c.B * 255)
    a := 1 }

/-! ## `float64` arithmetic -/

/-- The number of bits of `n` (Go's `bits.Len`), by halving; the first argument bounds
the number of halvings. -/
def bitLengthAux : Nat → Nat → Nat
  | 0, _ => 0
  | fuel + 1, n => if n = 0 then 0 else bitLengthAux fuel (n / 2) + 1

/-- The number of bits of `n`: 0 for 0, and `k + 1` when `2 ^ k ≤ n < 2 ^ (k + 1)`. -/
def bitLength (n : Nat) : Nat := bitLengthAux n n

/-- A `float64` value (IEEE 754 binary64): a NaN (payloads are not told apart), an
infinity with its sign, or a finite value with its sign bit, its 11-bit exponent field
`e < 2047` and its 52-bit fraction field `f`. -/
inductive F64 where
  | nan
  | inf (neg : Bool)
  | fin (neg : Bool) (e : Fin 2047) (f : Fin (2 ^ 52))
  deriving DecidableEq, Repr

namespace F64

/-- The significand of a finite value as an integer: the fraction for a subnormal
(exponent field 0), the fraction with the hidden bit otherwise. -/
def mant (e : Fin 2047) (f : Fin (2 ^ 52)) : Nat :=
  if e.val = 0 then f.val else 2 ^ 52 + f.val

/-- The exponent of the unit in the last place: the finite value with fields `e`, `f`
is `mant e f * 2 ^ expo e`. -/
def expo (e : Fin 2047) : Int :=
  (if e.val = 0 then 1 else (e.val : Int)) - 1075

/-- The finite value `m * 2 ^ q` from its significand `m ≤ 2 ^ 53` and the exponent `q`
of its last place (`q = -1074` when `m < 2 ^ 52`); a significand of `2 ^ 53` is
renormalised, and a value of `2 ^ 1024` or more is an infinity. -/
def pack (neg : Bool) (m : Nat) (q : Int) : F64 :=
  let m1 := if m = 2 ^ 53 then 2 ^ 52 else m
  let q1 := if m = 2 ^ 53 then q + 1 else q
  if m1 < 2 ^ 52 then fin neg ⟨0, by decide⟩ ⟨m1 % 2 ^ 52, Nat.mod_lt _ (Nat.two_pow_pos 52)⟩
  else if q1 > 971 then inf neg
  else fin neg ⟨(q1 + 1075).toNat % 2047, Nat.mod_lt _ (by decide)⟩
    ⟨(m1 - 2 ^ 52) % 2 ^ 52, Nat.mod_lt _ (Nat.two_pow_pos 52)⟩

/-- Rounding to nearest, ties to even: the `float64` nearest to `± M * 2 ^ E`. -/
def round (neg : Bool) (M : Nat) (E : Int) : F64 :=
  let q : Int := max ((bitLength M : Int) - 1 + E - 52) (-1074)
  if q ≤ E then pack neg (M <<< (E - q).toNat) q
  else
    let s := (q - E).toNat
    let m := M >>> s
    let r := M - (m <<< s)
    let up := decide (2 * r > 1 <<< s) || (decide (2 * r = 1 <<< s) && decide (m % 2 = 1))
    pack neg (if up then m + 1 else m) q

/-- The conversion `float64(n)` of a natural number. -/
def ofNat (n : Nat) : F64 := round false n 0

/-- Floating-point addition `x + y`. -/
def add : F64 → F64 → F64
  | nan, _ => nan
  | _, nan => nan
  | inf s, inf t => if s = t then inf s else nan
  | inf s, fin _ _ _ => inf s
  | fin _ _ _, inf t => inf t
  | fin s1 e1 f1, fin s2 e2 f2 =>
    let q := min (expo e1) (expo e2)
    let x : Int := (if s1 then -1 else 1) * ((mant e1 f1 <<< (expo e1 - q).toNat : Nat) : Int)
    let y : Int := (if s2 then -1 else 1) * ((mant e2 f2 <<< (expo e2 - q).toNat : Nat) : Int)
    if x + y = 0 then fin (s1 && s2) ⟨0, by decide⟩ ⟨0, Nat.two_pow_pos 52⟩
    else round (decide (x + y < 0)) (x + y).natAbs q

/-- Floating-point multiplication `x * y`. -/
def mul : F64 → F64 → F64
  | nan, _ => nan
  | _, nan => nan
  | inf s, inf t => inf (xor s t)
  | inf s, fin t e f => if mant e f = 0 then nan else inf (xor s t)
  | fin s e f, inf t => if mant e f = 0 then nan else inf (xor s t)
  | fin s1 e1 f1, fin s2 e2 f2 =>
    round (xor s1 s2) (mant e1 f1 * mant e2 f2) (expo e1 + expo e2)

/-- The order key of a value that is not a NaN: the sign applied to the exponent and
fraction fields read as one integer (an infinity has exponent field 2047); both zeros
have key 0.  IEEE 754 values are ordered as their keys. -/
def key : F64 → Option Int
  | nan => none
  | inf neg => some ((if neg then -1 else 1) * (2047 * 2 ^ 52))
  | fin neg e f => some ((if neg then -1 else 1) * ((e.val * 2 ^ 52 + f.val : Nat) : Int))

/-- Go's `x < y` on `float64`: false when either is a NaN. -/
def lt (x y : F64) : Bool :=
  match key x, key y with
  | some a, some b => decide (a < b)
  | _, _ => false

/-- Go's `x > y` on `float64`: false when either is a NaN. -/
def gt (x y : F64) : Bool := lt y x

/-- Go's `x == y` on `float64`: false when either is a NaN, true on the two zeros. -/
def eq (x y : F64) : Bool :=
  match key x, key y with
  | some a, some b => decide (a = b)
  | _, _ => false

/-- The integer part of the magnitude of a finite value. -/
def truncNat (e : Fin 2047) (f : Fin (2 ^ 52)) : Nat :=
  if 0 ≤ expo e then mant e f <<< (expo e).toNat else mant e f >>> (- expo e).toNat

/-- The conversion `uint32(x)`: the fraction is discarded.  When the result is not a
`uint32` value (a NaN, an infinity, a value of `2 ^ 32` or more or of `-1` or less) Go
leaves it to the implementation: `undef` is that choice. -/
def toUint32 (undef : F64 → Nat) (x : F64) : Nat :=
  match x with
  | fin neg e f =>
    if truncNat e f = 0 then 0
    else if neg = false ∧ truncNat e f < 2 ^ 32 then truncNat e f
    else undef x % 2 ^ 32
  | _ => undef x % 2 ^ 32

/-- The value with the given 64 bits (`math.Float64frombits`). -/
def ofBits (b : Nat) : F64 :=
  let neg := decide (b / 2 ^ 63 % 2 = 1)
  let e := b / 2 ^ 52 % 2048
  let f := b % 2 ^ 52
  if h : e < 2047 then fin neg ⟨e, h⟩ ⟨f, Nat.mod_lt _ (Nat.two_pow_pos 52)⟩
  else if f = 0 then inf neg else nan

/-- Go's `x <= y` on `float64`: false when either is a NaN. -/
def le (x y : F64) : Bool :=
  match key x, key y with
  | some a, some b => decide (a ≤ b)
  | _, _ => false

/-- Whether the value is a NaN. -/
def isNaN : F64 → Bool
  | nan => true
  | _ => false

/-- The integer part of the magnitude of a finite value (0 for a NaN or an infinity). -/
def intPart : F64 → Nat
  | fin _ e f => truncNat e f
  | _ => 0

end F64

/-! ## The colour type with `float64` channels -/

/-- The struct `Color` with its channels as `float64` values, as in the source. -/
structure Color64 where
  R : F64
  G : F64
  B : F64
  deriving DecidableEq, Repr

/-- The variable `Black`, with `float64` channels. -/
def Black64 : Color64 := ⟨F64.ofNat 0, F64.ofNat 0, F64.ofNat 0⟩

/-- The method `Add` in `float64` arithmetic. -/
def Color64.Add (c1 c2 : Color64) : Color64 :=
  { R := F64.add c1.R c2.R, G := F64.add c1.G c2.G, B := F64.add c1.B c2.B }

/-- The method `Mul` in `float64` arithmetic. -/
def Color64.Mul (c1 c2 : Color64) : Color64 :=
  { R := F64.mul c1.R c2.R, G := F64.mul c1.G c2.G, B := F64.mul c1.B c2.B }

/-- The function `clamp` on a `float64`. -/
def clamp64 (f : F64) : F64 :=
  if F64.lt f (F64.ofNat 0) then F64.ofNat 0
  else if F64.gt f (F64.ofNat 1) then F64.ofNat 1
  else f

/-- The method `RGBA` in `float64` arithmetic; `undef` is the implementation's choice
for a conversion to `uint32` that Go leaves open (see `F64.toUint32`). -/
def Color64.RGBA (undef : F64 → Nat) (c : Color64) : RGBAResult :=
  { r := F64.toUint32 undef (F64.mul (clamp64 c.R) (F64.ofNat 255))
    g := F64.toUint32 undef (F64.mul (clamp64 c.G) (F64.ofNat 255))
    b := F64.toUint32 undef (F64.mul (clamp64 c.B) (F64.ofNat 255))
    a := 1 }

/-- Go's `==` on two `Color` values: `==` on each pair of channels. -/
def Color64.eq (c d : Color64) : Bool :=
  F64.eq c.R d.R && F64.eq c.G d.G && F64.eq c.B d.B

/-- Whether some channel is a NaN. -/
def Color64.hasNaN (c : Color64) : Bool :=
  c.R.isNaN || c.G.isNaN || c.B.isNaN

/-! ## Hex parsing -/

/-- The function `ParseHexColor`.  The outer `Option` is `none` where a slice expression
panics; inside, the pair is Go's `(Color, error)`. -/
def ParseHexColor (c : GoString) : Option (Color × Option GoError) := do
  let c ← (if HasPrefix c (bytes "#") then slice c 1 c.length else some c)
  let c ← (if c.length = 3 then (do
      let x ← slice c 0 1
      let y ← slice c 1 2
      let z ← slice c 2 c.length
      some (x ++ x ++ y ++ y ++ z ++ z))
    else some c)
  let rgba : Color := ⟨0, 0, 0⟩
  if c.length = 6 then
    match ParseUint c with
    | (_, some err) => some (rgba, some err)
    | (rgb, none) =>
      some ({ R := ((rgb >>> 16 : Nat) : ℚ) / 255
              G := (((rgb >>> 8) &&& 255 : Nat) : ℚ) / 255
              B := ((rgb &&& 255 : Nat) : ℚ) / 255 }, none)
  else some (rgba, some (GoError.errorf (bytes "Bad color string: " ++ c)))

/-- The method `UnmarshalJSON` on a receiver holding `c0`: the result is the error
returned together with the receiver's value afterwards; `none` is a panic (an index or
slice expression out of range). -/
def Color.UnmarshalJSON (c0 : Color) (b : GoString) : Option (Option GoError × Color) :=
  if b.length < 2 then
    some (some (GoError.errorf (bytes "Bad color string: " ++ b)), c0)
  else do
    let first ← b.get? 0
    let b ← (if first = 34 then slice b 1 b.length else some b)
    let last ← b.get? (b.length - 1)
    let b ← (if last = 34 then slice b 0 (b.length - 1) else some b)
    match ← ParseHexColor b with
    | (_, some err) => some (some err, c0)
    | (col, none) => some (none, col)

/-! ## Specification-side vocabulary -/

/-- A hexadecimal digit: one of `0-9`, `a-f`, `A-F`. -/
def isHexDigit (c : Nat) : Prop :=
  (48 ≤ c ∧ c ≤ 57) ∨ (97 ≤ c ∧ c ≤ 102) ∨ (65 ≤ c ∧ c ≤ 70)

instance (c : Nat) : Decidable (isHexDigit c) := by
  unfold isHexDigit; infer_instance

/-- The value of a hexadecimal digit. -/
def hexVal (c : Nat) : Nat :=
  if c ≤ 57 then c - 48 else if c ≤ 70 then c - 55 else c - 87

/-- The number written by a string of hexadecimal digits, continuing from `n`. -/
def hexNumFrom (n : Nat) (s : GoString) : Nat :=
  s.foldl (fun acc c => acc * 16 + hexVal c) n

/-- The number written by a string of hexadecimal digits. -/
def hexNum (s : GoString) : Nat := hexNumFrom 0 s

/-- The string with one leading `#` removed, when there is one. -/
def stripHash : GoString → GoString
  | 35 :: t => t
  | s => s

/-- The shorthand expansion: a three-byte string has each byte doubled, any other
string is kept. -/
def expandShort : GoString → GoString
  | [x, y, z] => [x, x, y, y, z, z]
  | s => s

/-- The last part of `ParseHexColor`, from `rgba := Color{}` on, as a function of the
string left by the two rewrites of `c` (a proof device: `ParseHexColor_eq` relates it
to `ParseHexColor`). -/
def parseBody (c : GoString) : Color × Option GoError :=
  if c.length = 6 then
    match ParseUint c with
    | (_, some err) => (⟨0, 0, 0⟩, some err)
    | (rgb, none) =>
      ({ R := ((rgb >>> 16 : Nat) : ℚ) / 255
         G := (((rgb >>> 8) &&& 255 : Nat) : ℚ) / 255
         B := ((rgb &&& 255 : Nat) : ℚ) / 255 }, none)
  else (⟨0, 0, 0⟩, some (GoError.errorf (bytes "Bad color string: " ++ c)))

/-! ## Upper and lower case (for the case-insensitivity claim) -/

/-- The upper-case form of an ASCII byte. -/
def toUpperByte (c : Nat) : Nat := if 97 ≤ c ∧ c ≤ 122 then c - 32 else c

/-- The lower-case form of an ASCII byte. -/
def toLowerByte (c : Nat) : Nat := if 65 ≤ c ∧ c ≤ 90 then c + 32 else c

/-- The string with all ASCII letters upper-cased (what `strings.ToUpper` returns on an
ASCII string). -/
def ToUpper (s : GoString) : GoString := s.map toUpperByte

/-- The string with all ASCII letters lower-cased (what `strings.ToLower` returns on an
ASCII string). -/
def ToLower (s : GoString) : GoString := s.map toLowerByte

/-- A byte map that keeps `#`, hexadecimal digits and their values. -/
def CasePreserving (f : Nat → Nat) : Prop :=
  (∀ c, f c = 35 ↔ c = 35) ∧ ∀ c, isHexDigit c → isHexDigit (f c) ∧ hexVal (f c) = hexVal c

/-! ## Vocabulary for deserialization -/

/-- The byte sequence with one leading double quote removed, when there is one, and
then one trailing double quote removed, when there is one. -/
def stripQuotes (b : GoString) : GoString :=
  let b1 := if b.head? = some 34 then b.tail else b
  if b1.getLast? = some 34 then b1.dropLast else b1

/-- The string `s` between two double quotes: a double quote (byte 34), then `s`, then
a double quote. -/
def quoted (s : GoString) : GoString := [34] ++ s ++ [34]

/-- What `UnmarshalJSON` makes of the pair returned by `ParseHexColor`, on a receiver
holding `c0`: an error is returned and the receiver kept, or nil is returned and the
receiver becomes the parsed colour. -/
def afterParse (c0 : Color) (r : Color × Option GoError) : Option GoError × Color :=
  match r with
  | (_, some err) => (some err, c0)
  | (col, none) => (none, col)

/-! ## Lemmas on the digit loop -/

set_option maxRecDepth 100000 in
theorem lower_small : ∀ c < 256, (97 ≤ lower c ∧ lower c ≤ 122) ↔
    ((65 ≤ c ∧ c ≤ 90) ∨ (97 ≤ c ∧ c ≤ 122)) := by
  unfold lower
  decide

set_option maxRecDepth 100000 in
theorem lower_val : ∀ c < 256, 65 ≤ c → c ≤ 122 → (c ≤ 90 ∨ 97 ≤ c) →
    lower c = if c ≤ 90 then c + 32 else c := by
  unfold lower
  decide

theorem lower_large (c : Nat) (h : 256 ≤ c) : 256 ≤ lower c := by
  have h8 : c ≥ 2 ^ 8 := h
  obtain ⟨i, hi, hb⟩ := Nat.ge_two_pow_implies_high_bit_true h8
  have h1 : (lower c).testBit i = true := by
    unfold lower; rw [Nat.testBit_or, hb]; rfl
  have h2 := Nat.testBit_implies_ge h1
  have h3 : 2 ^ 8 ≤ 2 ^ i := Nat.pow_le_pow_right (by norm_num) hi
  omega

theorem digitOf_hex (c : Nat) (h : isHexDigit c) : digitOf c = some (hexVal c) := by
  have hc : c < 256 := by unfold isHexDigit at h; omega
  unfold digitOf hexVal
  unfold isHexDigit at h
  by_cases h1 : 48 ≤ c ∧ c ≤ 57
  · rw [if_pos h1, if_pos h1.2]
  · have h2 : 65 ≤ c ∧ c ≤ 122 ∧ (c ≤ 90 ∨ 97 ≤ c) := by omega
    have hl := lower_val c hc h2.1 h2.2.1 h2.2.2
    rw [if_neg h1]
    split_ifs at hl ⊢ <;> (congr 1; omega)

theorem hexVal_lt (c : Nat) (h : isHexDigit c) : hexVal c < 16 := by
  unfold isHexDigit at h; unfold hexVal
  split_ifs <;> omega

theorem digitOf_not_hex (c : Nat) (h : ¬ isHexDigit c) :
    digitOf c = none ∨ ∃ d, digitOf c = some d ∧ 16 ≤ d := by
  unfold isHexDigit at h
  unfold digitOf
  by_cases h1 : 48 ≤ c ∧ c ≤ 57
  · exact absurd (Or.inl h1) h
  · rw [if_neg h1]
    by_cases h2 : 97 ≤ lower c ∧ lower c ≤ 122
    · rw [if_pos h2]
      right
      refine ⟨_, rfl, ?_⟩
      have hc : c < 256 := by
        by_contra hcon
        have := lower_large c (by omega)
        omega
      have h3 := (lower_small c hc).1 h2
      have hl := lower_val c hc (by omega) (by omega) (by omega)
      split_ifs at hl <;> omega
    · rw [if_neg h2]; left; trivial

theorem loop_step_bound (n d K : Nat) (hd : d < 16) (hK : 1 ≤ K)
    (h : (n + 1) * (16 * K) ≤ 2 ^ 32) :
    n * 16 + d < 2 ^ 32 ∧ (n * 16 + d + 1) * K ≤ 2 ^ 32 := by
  have h1 : (n * 16 + d + 1) * K ≤ (n + 1) * 16 * K :=
    Nat.mul_le_mul_right K (by omega)
  have h2 : (n + 1) * 16 * K = (n + 1) * (16 * K) := Nat.mul_assoc _ _ _
  have h3 : (n * 16 + d + 1) * 1 ≤ (n * 16 + d + 1) * K := Nat.mul_le_mul_left _ hK
  omega

theorem parseLoop_cons_hex (s0 rest : GoString) (c n : Nat) (hc : isHexDigit c)
    (hn : n * 16 + hexVal c < 2 ^ 32) :
    parseLoop 16 32 s0 (c :: rest) n = parseLoop 16 32 s0 rest (n * 16 + hexVal c) := by
  have hd := hexVal_lt c hc
  rw [parseLoop, digitOf_hex c hc]
  simp only [maxUint64]
  have e1 : (n * 16) % 2 ^ 64 = n * 16 := Nat.mod_eq_of_lt (by omega)
  have e2 : (n * 16 + hexVal c) % 2 ^ 64 = n * 16 + hexVal c := Nat.mod_eq_of_lt (by omega)
  rw [e1, e2]
  rw [if_neg (by omega), if_neg (by omega), if_neg (by omega)]

theorem parseLoop_hex (s0 : GoString) : ∀ (s : GoString) (n : Nat),
    (∀ c ∈ s, isHexDigit c) → (n + 1) * 16 ^ s.length ≤ 2 ^ 32 →
    parseLoop 16 32 s0 s n = (hexNumFrom n s, none)
  | [], n, _, _ => by simp [parseLoop, hexNumFrom]
  | c :: rest, n, hs, hb => by
    have hc : isHexDigit c := hs c (List.mem_cons_self _ _)
    have hK : 1 ≤ 16 ^ rest.length := Nat.one_le_two_pow.trans (Nat.pow_le_pow_left (by norm_num) _)
    rw [List.length_cons, Nat.pow_succ, Nat.mul_comm (16 ^ rest.length) 16] at hb
    obtain ⟨h1, h2⟩ := loop_step_bound n (hexVal c) _ (hexVal_lt c hc) hK hb
    rw [parseLoop_cons_hex s0 rest c n hc h1,
      parseLoop_hex s0 rest _ (fun x hx => hs x (List.mem_cons_of_mem _ hx)) h2]
    simp [hexNumFrom]

theorem parseLoop_bad (s0 : GoString) : ∀ (s : GoString) (n : Nat),
    (∃ c ∈ s, ¬ isHexDigit c) → (n + 1) * 16 ^ s.length ≤ 2 ^ 32 →
    parseLoop 16 32 s0 s n = (0, some (syntaxError s0))
  | [], _, hs, _ => by simp at hs
  | c :: rest, n, hs, hb => by
    by_cases hc : isHexDigit c
    · have hK : 1 ≤ 16 ^ rest.length :=
        Nat.one_le_two_pow.trans (Nat.pow_le_pow_left (by norm_num) _)
      rw [List.length_cons, Nat.pow_succ, Nat.mul_comm (16 ^ rest.length) 16] at hb
      obtain ⟨h1, h2⟩ := loop_step_bound n (hexVal c) _ (hexVal_lt c hc) hK hb
      have hr : ∃ x ∈ rest, ¬ isHexDigit x := by
        obtain ⟨x, hx, hbad⟩ := hs
        rcases List.mem_cons.1 hx with rfl | hx
        · exact absurd hc hbad
        · exact ⟨x, hx, hbad⟩
      rw [parseLoop_cons_hex s0 rest c n hc h1, parseLoop_bad s0 rest _ hr h2]
    · rw [parseLoop]
      rcases digitOf_not_hex c hc with h | ⟨d, h, hd⟩
      · rw [h]
      · rw [h]
        simp only
        rw [if_pos hd]

theorem hexNumFrom_lt : ∀ (s : GoString) (n : Nat), (∀ c ∈ s, isHexDigit c) →
    hexNumFrom n s < (n + 1) * 16 ^ s.length
  | [], n, _ => by simp [hexNumFrom]
  | c :: rest, n, hs => by
    have hc := hexVal_lt c (hs c (List.mem_cons_self _ _))
    have ih := hexNumFrom_lt rest (n * 16 + hexVal c)
      (fun x hx => hs x (List.mem_cons_of_mem _ hx))
    have e : hexNumFrom n (c :: rest) = hexNumFrom (n * 16 + hexVal c) rest := by
      simp [hexNumFrom]
    rw [e, List.length_cons, Nat.pow_succ, Nat.mul_comm (16 ^ rest.length) 16,
      ← Nat.mul_assoc]
    exact lt_of_lt_of_le ih (Nat.mul_le_mul_right _ (by omega))

/-- On six bytes `ParseUint` succeeds exactly on hexadecimal digits, with their value. -/
theorem ParseUint_six_hex (s : GoString) (hl : s.length = 6) (hs : ∀ c ∈ s, isHexDigit c) :
    ParseUint s = (hexNum s, none) := by
  have hne : s ≠ [] := by intro h; rw [h] at hl; simp at hl
  unfold ParseUint hexNum
  rw [if_neg hne]
  exact parseLoop_hex s s 0 hs (by rw [hl]; norm_num)

theorem ParseUint_six_bad (s : GoString) (hl : s.length = 6) (hs : ∃ c ∈ s, ¬ isHexDigit c) :
    ParseUint s = (0, some (syntaxError s)) := by
  have hne : s ≠ [] := by intro h; rw [h] at hl; simp at hl
  unfold ParseUint
  rw [if_neg hne]
  exact parseLoop_bad s s 0 hs (by rw [hl]; norm_num)

theorem hexNum_six_lt (s : GoString) (hl : s.length = 6) (hs : ∀ c ∈ s, isHexDigit c) :
    hexNum s < 2 ^ 24 := by
  have := hexNumFrom_lt s 0 hs
  rw [hl] at this
  simpa [hexNum] using this

/-! ## The shape of `ParseHexColor` -/

theorem bytes_hash : bytes "#" = [35] := by decide

theorem strip_step (s : GoString) :
    (if HasPrefix s (bytes "#") then slice s 1 s.length else some s) = some (stripHash s) := by
  rw [bytes_hash]
  match s with
  | [] => simp [HasPrefix, stripHash]
  | c :: t =>
    by_cases h : c = 35
    · subst h
      simp [HasPrefix, stripHash, slice]
    · have e : stripHash (c :: t) = c :: t := by
        unfold stripHash
        split
        · rename_i heq; simp at heq; exact absurd heq.1 h
        · rfl
      simp [HasPrefix, e, h]

theorem expand_step (c : GoString) :
    (if c.length = 3 then (do
      let x ← slice c 0 1
      let y ← slice c 1 2
      let z ← slice c 2 c.length
      some (x ++ x ++ y ++ y ++ z ++ z))
    else some c) = some (expandShort c) := by
  match c with
  | [] => simp [expandShort]
  | [_] => simp [expandShort]
  | [_, _] => simp [expandShort]
  | [x, y, z] => simp [expandShort, slice]
  | _ :: _ :: _ :: _ :: _ => simp [expandShort]

theorem ParseHexColor_eq (s : GoString) :
    ParseHexColor s = some (parseBody (expandShort (stripHash s))) := by
  have h1 := strip_step s
  have h2 := expand_step (stripHash s)
  simp only [Option.bind_eq_bind] at h1 h2
  unfold ParseHexColor
  simp only [Option.bind_eq_bind]
  rw [h1, Option.some_bind, h2, Option.some_bind]
  simp only [parseBody]
  split_ifs
  · split <;> simp_all
  · rfl

theorem parseBody_hex (c : GoString) (hl : c.length = 6) (hs : ∀ x ∈ c, isHexDigit x) :
    parseBody c =
      ({ R := ((hexNum c / 65536 : Nat) : ℚ) / 255
         G := ((hexNum c / 256 % 256 : Nat) : ℚ) / 255
         B := ((hexNum c % 256 : Nat) : ℚ) / 255 }, none) := by
  unfold parseBody
  rw [if_pos hl, ParseUint_six_hex c hl hs]
  have e1 : hexNum c >>> 16 = hexNum c / 65536 := by
    rw [Nat.shiftRight_eq_div_pow]
  have e2 : (hexNum c >>> 8) &&& 255 = hexNum c / 256 % 256 := by
    rw [Nat.shiftRight_eq_div_pow]
    exact Nat.and_pow_two_sub_one_eq_mod _ 8
  have e3 : hexNum c &&& 255 = hexNum c % 256 := Nat.and_pow_two_sub_one_eq_mod _ 8
  simp only [e1, e2, e3]

theorem parseBody_bad (c : GoString) (hl : c.length = 6) (hs : ∃ x ∈ c, ¬ isHexDigit x) :
    parseBody c = (⟨0, 0, 0⟩, some (syntaxError c)) := by
  unfold parseBody
  rw [if_pos hl, ParseUint_six_bad c hl hs]

theorem parseBody_len (c : GoString) (hl : c.length ≠ 6) :
    parseBody c = (⟨0, 0, 0⟩, some (GoError.errorf (bytes "Bad color string: " ++ c))) := by
  unfold parseBody
  rw [if_neg hl]

theorem expandShort_length (c : GoString) :
    (expandShort c).length = 6 ↔ (c.length = 3 ∨ c.length = 6) := by
  match c with
  | [] => simp [expandShort]
  | [_] => simp [expandShort]
  | [_, _] => simp [expandShort]
  | [_, _, _] => simp [expandShort]
  | _ :: _ :: _ :: _ :: t => simp [expandShort]

theorem expandShort_of_length_ne (c : GoString) (h : c.length ≠ 3) : expandShort c = c := by
  match c with
  | [] => simp [expandShort]
  | [_] => simp [expandShort]
  | [_, _] => simp [expandShort]
  | [_, _, _] => simp at h
  | _ :: _ :: _ :: _ :: t => simp [expandShort]

theorem expandShort_mem (c : GoString) (x : Nat) : x ∈ expandShort c ↔ x ∈ c := by
  by_cases h : c.length = 3
  · match c, h with
    | [a, b, d], _ =>
      simp only [expandShort, List.mem_cons, List.mem_singleton, List.not_mem_nil, or_false]
      tauto
  · rw [expandShort_of_length_ne c h]

theorem stripHash_of_hex (c : Nat) (t : GoString) (h : isHexDigit c) :
    stripHash (c :: t) = c :: t := by
  have hc : c ≠ 35 := by unfold isHexDigit at h; omega
  unfold stripHash
  split
  · rename_i heq; simp at heq; exact absurd heq.1 hc
  · rfl

theorem stripHash_cons_hash (t : GoString) : stripHash (35 :: t) = t := rfl

/-- The result of `ParseHexColor` on every input, by cases on the stripped string. -/
theorem ParseHexColor_cases (s : GoString) :
    ParseHexColor s = some (
      if (stripHash s).length = 3 ∨ (stripHash s).length = 6 then
        if ∀ x ∈ stripHash s, isHexDigit x then
          ({ R := ((hexNum (expandShort (stripHash s)) / 65536 : Nat) : ℚ) / 255
             G := ((hexNum (expandShort (stripHash s)) / 256 % 256 : Nat) : ℚ) / 255
             B := ((hexNum (expandShort (stripHash s)) % 256 : Nat) : ℚ) / 255 }, none)
        else (⟨0, 0, 0⟩, some (syntaxError (expandShort (stripHash s))))
      else (⟨0, 0, 0⟩, some (GoError.errorf (bytes "Bad color string: " ++ stripHash s)))) := by
  rw [ParseHexColor_eq]
  congr 1
  by_cases hl : (stripHash s).length = 3 ∨ (stripHash s).length = 6
  · have hl6 := (expandShort_length _).2 hl
    rw [if_pos hl]
    by_cases hs : ∀ x ∈ stripHash s, isHexDigit x
    · rw [if_pos hs]
      exact parseBody_hex _ hl6 (fun x hx => hs x ((expandShort_mem _ x).1 hx))
    · rw [if_neg hs]
      apply parseBody_bad _ hl6
      push_neg at hs
      obtain ⟨x, hx, hbad⟩ := hs
      exact ⟨x, (expandShort_mem _ x).2 hx, hbad⟩
  · rw [if_neg hl]
    have hl6 : (expandShort (stripHash s)).length ≠ 6 := fun h => hl ((expandShort_length _).1 h)
    have h3 : (stripHash s).length ≠ 3 := fun h => hl (Or.inl h)
    rw [parseBody_len _ hl6, expandShort_of_length_ne _ h3]

/-- The result of `ParseHexColor` on three or six hexadecimal digits, with or without
a leading `#`. -/
theorem ParseHexColor_of_hex (s : GoString)
    (hl : (stripHash s).length = 3 ∨ (stripHash s).length = 6)
    (hs : ∀ x ∈ stripHash s, isHexDigit x) :
    ParseHexColor s = some
      ({ R := ((hexNum (expandShort (stripHash s)) / 65536 : Nat) : ℚ) / 255
         G := ((hexNum (expandShort (stripHash s)) / 256 % 256 : Nat) : ℚ) / 255
         B := ((hexNum (expandShort (stripHash s)) % 256 : Nat) : ℚ) / 255 }, none) := by
  rw [ParseHexColor_cases, if_pos hl, if_pos hs]

theorem hexNum_six (a b c d e f : Nat) :
    hexNum [a, b, c, d, e, f] =
      ((((hexVal a * 16 + hexVal b) * 16 + hexVal c) * 16 + hexVal d) * 16 + hexVal e) * 16
        + hexVal f := by
  simp [hexNum, hexNumFrom]

theorem unit_of_byte (k : Nat) (h : k ≤ 255) : (0 : ℚ) ≤ (k : ℚ) / 255 ∧ (k : ℚ) / 255 ≤ 1 := by
  have h1 : (0 : ℚ) ≤ (k : ℚ) := Nat.cast_nonneg k
  have h2 : (k : ℚ) ≤ 255 := by exact_mod_cast h
  constructor
  · positivity
  · rw [div_le_one (by norm_num)]; exact h2

theorem toUpperByte_preserving : CasePreserving toUpperByte := by
  refine ⟨fun c => ?_, fun c h => ?_⟩
  · unfold toUpperByte; split_ifs <;> omega
  · unfold isHexDigit at h
    unfold toUpperByte isHexDigit hexVal
    split_ifs <;> omega

theorem toLowerByte_preserving : CasePreserving toLowerByte := by
  refine ⟨fun c => ?_, fun c h => ?_⟩
  · unfold toLowerByte; split_ifs <;> omega
  · unfold isHexDigit at h
    unfold toLowerByte isHexDigit hexVal
    split_ifs <;> omega

theorem stripHash_map (f : Nat → Nat) (hf : CasePreserving f) (s : GoString) :
    stripHash (s.map f) = (stripHash s).map f := by
  match s with
  | [] => rfl
  | c :: t =>
    by_cases hc : c = 35
    · subst hc
      have : f 35 = 35 := (hf.1 35).2 rfl
      simp [stripHash, this]
    · have hfc : f c ≠ 35 := fun h => hc ((hf.1 c).1 h)
      have e1 : stripHash (c :: t) = c :: t := by
        unfold stripHash; split
        · rename_i heq; simp at heq; exact absurd heq.1 hc
        · rfl
      have e2 : stripHash (f c :: t.map f) = f c :: t.map f := by
        unfold stripHash; split
        · rename_i heq; simp at heq; exact absurd heq.1 hfc
        · rfl
      rw [List.map_cons, e2, e1, List.map_cons]

theorem expandShort_map (f : Nat → Nat) (s : GoString) :
    expandShort (s.map f) = (expandShort s).map f := by
  match s with
  | [] => rfl
  | [_] => rfl
  | [_, _] => rfl
  | [_, _, _] => rfl
  | _ :: _ :: _ :: _ :: t => simp [expandShort]

theorem hexNumFrom_map (f : Nat → Nat) (hf : CasePreserving f) :
    ∀ (s : GoString) (n : Nat), (∀ c ∈ s, isHexDigit c) →
      hexNumFrom n (s.map f) = hexNumFrom n s
  | [], _, _ => rfl
  | c :: t, n, hs => by
    have hc := (hf.2 c (hs c (List.mem_cons_self _ _))).2
    have ih := hexNumFrom_map f hf t (n * 16 + hexVal c)
      (fun x hx => hs x (List.mem_cons_of_mem _ hx))
    simp only [hexNumFrom, List.map_cons, List.foldl_cons] at ih ⊢
    rw [hc, ih]

theorem ParseHexColor_map (f : Nat → Nat) (hf : CasePreserving f) (s : GoString)
    (hl : (stripHash s).length = 3 ∨ (stripHash s).length = 6)
    (hs : ∀ x ∈ stripHash s, isHexDigit x) :
    ParseHexColor (s.map f) = ParseHexColor s := by
  have hl2 : (stripHash (s.map f)).length = 3 ∨ (stripHash (s.map f)).length = 6 := by
    rw [stripHash_map f hf, List.length_map]; exact hl
  have hs2 : ∀ x ∈ stripHash (s.map f), isHexDigit x := by
    rw [stripHash_map f hf]
    intro x hx
    obtain ⟨y, hy, rfl⟩ := List.mem_map.1 hx
    exact (hf.2 y (hs y hy)).1
  have hn : hexNum (expandShort (stripHash (s.map f))) = hexNum (expandShort (stripHash s)) := by
    rw [stripHash_map f hf, expandShort_map]
    exact hexNumFrom_map f hf _ 0 (fun x hx => hs x ((expandShort_mem _ x).1 hx))
  rw [ParseHexColor_of_hex _ hl2 hs2, ParseHexColor_of_hex _ hl hs, hn]

/-! ## Lemmas on the display conversion -/

theorem toUint32_of_range (x : ℚ) (h0 : 0 ≤ x) (h1 : x ≤ 255) :
    toUint32 x = ⌊x⌋.toNat ∧ ⌊x⌋.toNat ≤ 255 := by
  have hf0 : 0 ≤ ⌊x⌋ := Int.floor_nonneg.2 h0
  have hf1 : ⌊x⌋ ≤ 255 := by
    have : ⌊x⌋ ≤ ⌊(255 : ℚ)⌋ := Int.floor_mono h1
    simpa using this
  unfold toUint32
  rw [if_pos h0]
  have e : ⌊x⌋ % 2 ^ 32 = ⌊x⌋ := Int.emod_eq_of_lt hf0 (by omega)
  rw [e]
  exact ⟨rfl, by omega⟩

theorem channel_RGBA (v : ℚ) :
    toUint32 (clamp v * 255) =
        (if v < 0 then 0 else if v > 1 then 255 else ⌊255 * v⌋.toNat) ∧
      toUint32 (clamp v * 255) ≤ 255 := by
  unfold clamp
  by_cases h0 : v < 0
  · have := toUint32_of_range 0 le_rfl (by norm_num)
    simp [h0, this.1]
  · by_cases h1 : v > 1
    · have := toUint32_of_range 255 (by norm_num) le_rfl
      simp [h0, h1, this.1]
    · rw [if_neg h0, if_neg h1, if_neg h0, if_neg h1]
      have hv0 : 0 ≤ v := not_lt.1 h0
      have hv1 : v ≤ 1 := not_lt.1 h1
      have := toUint32_of_range (v * 255) (by positivity) (by linarith)
      rw [this.1, mul_comm 255 v]
      exact ⟨rfl, this.2⟩

theorem ParseHexColor_ok_iff (s : GoString) :
    (∃ col, ParseHexColor s = some (col, none)) ↔
      (((stripHash s).length = 3 ∨ (stripHash s).length = 6) ∧
        ∀ c ∈ stripHash s, isHexDigit c) := by
  rw [ParseHexColor_cases]
  constructor
  · rintro ⟨col, h⟩
    by_cases hl : (stripHash s).length = 3 ∨ (stripHash s).length = 6
    · by_cases hs : ∀ x ∈ stripHash s, isHexDigit x
      · exact ⟨hl, hs⟩
      · rw [if_pos hl, if_neg hs] at h
        simp at h
    · rw [if_neg hl] at h
      simp at h
  · rintro ⟨hl, hs⟩
    rw [if_pos hl, if_pos hs]
    exact ⟨_, rfl⟩

/-! ## The claims -/

/-- C1: `ParseHexColor` returns a nil error exactly when the string, after one leading
`#` is removed if present, consists of exactly 3 or exactly 6 hexadecimal digits. -/
theorem ParseHexColor_nil_error_iff (s : GoString) :
    (∃ col, ParseHexColor s = some (col, none)) ↔
      (((stripHash s).length = 3 ∨ (stripHash s).length = 6) ∧
        ∀ c ∈ stripHash s, isHexDigit c) :=
  ParseHexColor_ok_iff s

/-- Instances of C1: `#fff` and `abc123` are accepted; a sign, an underscore, a `0x`
prefix, a second `#`, a non-digit and a wrong length are rejected. -/
theorem ParseHexColor_nil_error_iff_witness :
    (∃ col, ParseHexColor (bytes "#fff") = some (col, none)) ∧
    (∃ col, ParseHexColor (bytes "abc123") = some (col, none)) ∧
    (¬ ∃ col, ParseHexColor (bytes "+fffff") = some (col, none)) ∧
    (¬ ∃ col, ParseHexColor (bytes "ff_fff") = some (col, none)) ∧
    (¬ ∃ col, ParseHexColor (bytes "0xffff") = some (col, none)) ∧
    (¬ ∃ col, ParseHexColor (bytes "##fff") = some (col, none)) ∧
    (¬ ∃ col, ParseHexColor (bytes "#ggg") = some (col, none)) ∧
    (¬ ∃ col, ParseHexColor (bytes "#ffff") = some (col, none)) :=
  ⟨(ParseHexColor_nil_error_iff _).2 (by decide),
   (ParseHexColor_nil_error_iff _).2 (by decide),
   fun h => absurd ((ParseHexColor_nil_error_iff _).1 h) (by decide),
   fun h => absurd ((ParseHexColor_nil_error_iff _).1 h) (by decide),
   fun h => absurd ((ParseHexColor_nil_error_iff _).1 h) (by decide),
   fun h => absurd ((ParseHexColor_nil_error_iff _).1 h) (by decide),
   fun h => absurd ((ParseHexColor_nil_error_iff _).1 h) (by decide),
   fun h => absurd ((ParseHexColor_nil_error_iff _).1 h) (by decide)⟩

/-- C2: on six hexadecimal digits `d1 … d6`, with or without a leading `#`,
`ParseHexColor` succeeds with `R = v(d1 d2)/255`, `G = v(d3 d4)/255`, `B = v(d5 d6)/255`;
with `n` the 24-bit value of the digits these are bits 16-23, 8-15 and 0-7 of `n`,
each over 255. -/
theorem ParseHexColor_six_digits (d1 d2 d3 d4 d5 d6 : Nat)
    (h1 : isHexDigit d1) (h2 : isHexDigit d2) (h3 : isHexDigit d3)
    (h4 : isHexDigit d4) (h5 : isHexDigit d5) (h6 : isHexDigit d6) :
    ParseHexColor [d1, d2, d3, d4, d5, d6] = some
        ({ R := ((hexVal d1 * 16 + hexVal d2 : Nat) : ℚ) / 255
           G := ((hexVal d3 * 16 + hexVal d4 : Nat) : ℚ) / 255
           B := ((hexVal d5 * 16 + hexVal d6 : Nat) : ℚ) / 255 }, none) ∧
      ParseHexColor (bytes "#" ++ [d1, d2, d3, d4, d5, d6]) =
        ParseHexColor [d1, d2, d3, d4, d5, d6] ∧
      hexNum [d1, d2, d3, d4, d5, d6] < 2 ^ 24 ∧
      hexVal d1 * 16 + hexVal d2 = hexNum [d1, d2, d3, d4, d5, d6] / 2 ^ 16 % 2 ^ 8 ∧
      hexVal d3 * 16 + hexVal d4 = hexNum [d1, d2, d3, d4, d5, d6] / 2 ^ 8 % 2 ^ 8 ∧
      hexVal d5 * 16 + hexVal d6 = hexNum [d1, d2, d3, d4, d5, d6] % 2 ^ 8 := by
  have hs : ∀ x ∈ [d1, d2, d3, d4, d5, d6], isHexDigit x := by
    intro x hx
    simp only [List.mem_cons, List.mem_singleton, List.not_mem_nil, or_false] at hx
    rcases hx with rfl | rfl | rfl | rfl | rfl | rfl <;> assumption
  have hst : stripHash [d1, d2, d3, d4, d5, d6] = [d1, d2, d3, d4, d5, d6] :=
    stripHash_of_hex _ _ h1
  have hex : expandShort [d1, d2, d3, d4, d5, d6] = [d1, d2, d3, d4, d5, d6] := rfl
  have v1 := hexVal_lt d1 h1
  have v2 := hexVal_lt d2 h2
  have v3 := hexVal_lt d3 h3
  have v4 := hexVal_lt d4 h4
  have v5 := hexVal_lt d5 h5
  have v6 := hexVal_lt d6 h6
  have hn := hexNum_six d1 d2 d3 d4 d5 d6
  have e1 : hexNum [d1, d2, d3, d4, d5, d6] / 65536 = hexVal d1 * 16 + hexVal d2 := by omega
  have e2 : hexNum [d1, d2, d3, d4, d5, d6] / 256 % 256 = hexVal d3 * 16 + hexVal d4 := by
    omega
  have e3 : hexNum [d1, d2, d3, d4, d5, d6] % 256 = hexVal d5 * 16 + hexVal d6 := by omega
  refine ⟨?_, ?_, ?_, ?_, ?_, ?_⟩
  · rw [ParseHexColor_of_hex _ (by rw [hst]; right; rfl) (by rw [hst]; exact hs), hst, hex,
      e1, e2, e3]
  · rw [bytes_hash, ParseHexColor_eq, ParseHexColor_eq]
    rw [hst]
    rfl
  · norm_num; omega
  · norm_num; omega
  · norm_num; omega
  · norm_num; omega

/-- Instances of C2: `#ff0080` gives `{1, 0, 128/255}`, `#ffffff` gives `{1, 1, 1}` and
`#000000` gives `{0, 0, 0}`. -/
theorem ParseHexColor_six_digits_witness :
    ParseHexColor (bytes "#ff0080") = some (⟨1, 0, 128 / 255⟩, none) ∧
    ParseHexColor (bytes "#ffffff") = some (⟨1, 1, 1⟩, none) ∧
    ParseHexColor (bytes "#000000") = some (⟨0, 0, 0⟩, none) := by
  have a := ParseHexColor_six_digits 102 102 48 48 56 48
    (by decide) (by decide) (by decide) (by decide) (by decide) (by decide)
  have b := ParseHexColor_six_digits 102 102 102 102 102 102
    (by decide) (by decide) (by decide) (by decide) (by decide) (by decide)
  have c := ParseHexColor_six_digits 48 48 48 48 48 48
    (by decide) (by decide) (by decide) (by decide) (by decide) (by decide)
  have ea : bytes "#ff0080" = bytes "#" ++ [102, 102, 48, 48, 56, 48] := by decide
  have eb : bytes "#ffffff" = bytes "#" ++ [102, 102, 102, 102, 102, 102] := by decide
  have ec : bytes "#000000" = bytes "#" ++ [48, 48, 48, 48, 48, 48] := by decide
  have v1 : hexVal 102 = 15 := by decide
  have v2 : hexVal 48 = 0 := by decide
  have v3 : hexVal 56 = 8 := by decide
  refine ⟨?_, ?_, ?_⟩
  · rw [ea, a.2.1, a.1, v1, v2, v3]; norm_num
  · rw [eb, b.2.1, b.1, v1]; norm_num
  · rw [ec, c.2.1, c.1, v2]; norm_num

/-- C3: for hexadecimal digits `x`, `y`, `z` the shorthand `xyz` and the full form
`xxyyzz` are parsed to the same colour with a nil error, with a leading `#` on either,
both or neither. -/
theorem ParseHexColor_shorthand (x y z : Nat)
    (hx : isHexDigit x) (hy : isHexDigit y) (hz : isHexDigit z) :
    (∃ col, ParseHexColor [x, x, y, y, z, z] = some (col, none)) ∧
      ParseHexColor [x, y, z] = ParseHexColor [x, x, y, y, z, z] ∧
      ParseHexColor (bytes "#" ++ [x, y, z]) = ParseHexColor [x, x, y, y, z, z] ∧
      ParseHexColor [x, y, z] = ParseHexColor (bytes "#" ++ [x, x, y, y, z, z]) ∧
      ParseHexColor (bytes "#" ++ [x, y, z]) =
        ParseHexColor (bytes "#" ++ [x, x, y, y, z, z]) := by
  have s3 : stripHash [x, y, z] = [x, y, z] := stripHash_of_hex _ _ hx
  have s6 : stripHash [x, x, y, y, z, z] = [x, x, y, y, z, z] := stripHash_of_hex _ _ hx
  have t3 : stripHash (bytes "#" ++ [x, y, z]) = [x, y, z] := by rw [bytes_hash]; rfl
  have t6 : stripHash (bytes "#" ++ [x, x, y, y, z, z]) = [x, x, y, y, z, z] := by
    rw [bytes_hash]; rfl
  have e3 : expandShort [x, y, z] = [x, x, y, y, z, z] := rfl
  have e6 : expandShort [x, x, y, y, z, z] = [x, x, y, y, z, z] := rfl
  have full : ∃ col, ParseHexColor [x, x, y, y, z, z] = some (col, none) := by
    refine (ParseHexColor_ok_iff _).2 ⟨by rw [s6]; right; rfl, ?_⟩
    rw [s6]
    intro c hc
    simp only [List.mem_cons, List.mem_singleton, List.not_mem_nil, or_false] at hc
    rcases hc with rfl | rfl | rfl | rfl | rfl | rfl <;> assumption
  refine ⟨full, ?_, ?_, ?_, ?_⟩ <;>
    simp only [ParseHexColor_eq, s3, s6, t3, t6, e3, e6]

/-- An instance of C3: `#fff` and `#ffffff` (and `fff`, `ffffff`) parse alike. -/
theorem ParseHexColor_shorthand_witness :
    ParseHexColor (bytes "#fff") = ParseHexColor (bytes "#ffffff") ∧
    ParseHexColor (bytes "fff") = ParseHexColor (bytes "ffffff") ∧
    ∃ col, ParseHexColor (bytes "ffffff") = some (col, none) := by
  have h := ParseHexColor_shorthand 102 102 102 (by decide) (by decide) (by decide)
  have e1 : bytes "#fff" = bytes "#" ++ [102, 102, 102] := by decide
  have e2 : bytes "#ffffff" = bytes "#" ++ [102, 102, 102, 102, 102, 102] := by decide
  have e3 : bytes "fff" = [102, 102, 102] := by decide
  have e4 : bytes "ffffff" = [102, 102, 102, 102, 102, 102] := by decide
  rw [e1, e2, e3, e4]
  exact ⟨h.2.2.2.2, h.2.1, h.1⟩

/-- C4: every colour returned with a nil error has its three channels in `[0, 1]`; each
channel is `k / 255` for a natural number `k ≤ 255` (the unmasked red byte included). -/
theorem ParseHexColor_unit_range (s : GoString) (c : Color)
    (h : ParseHexColor s = some (c, none)) :
    (0 ≤ c.R ∧ c.R ≤ 1) ∧ (0 ≤ c.G ∧ c.G ≤ 1) ∧ (0 ≤ c.B ∧ c.B ≤ 1) ∧
      ∃ r g b : Nat, r ≤ 255 ∧ g ≤ 255 ∧ b ≤ 255 ∧
        c = ⟨(r : ℚ) / 255, (g : ℚ) / 255, (b : ℚ) / 255⟩ := by
  obtain ⟨hl, hs⟩ := (ParseHexColor_ok_iff s).1 ⟨c, h⟩
  rw [ParseHexColor_of_hex s hl hs] at h
  have hlt := hexNum_six_lt (expandShort (stripHash s)) ((expandShort_length _).2 hl)
    (fun x hx => hs x ((expandShort_mem _ x).1 hx))
  have hc : c = _ := (Prod.mk.inj (Option.some.inj h)).1.symm
  have b1 : hexNum (expandShort (stripHash s)) / 65536 ≤ 255 := by omega
  have b2 : hexNum (expandShort (stripHash s)) / 256 % 256 ≤ 255 := by omega
  have b3 : hexNum (expandShort (stripHash s)) % 256 ≤ 255 := by omega
  subst hc
  exact ⟨unit_of_byte _ b1, unit_of_byte _ b2, unit_of_byte _ b3, _, _, _, b1, b2, b3, rfl⟩

/-- An instance of C4: the colour parsed from `#ff0080` lies in the unit range. -/
theorem ParseHexColor_unit_range_witness :
    ∃ c : Color, ParseHexColor (bytes "#ff0080") = some (c, none) ∧
      (0 ≤ c.R ∧ c.R ≤ 1) ∧ (0 ≤ c.G ∧ c.G ≤ 1) ∧ (0 ≤ c.B ∧ c.B ≤ 1) := by
  have hp := ParseHexColor_of_hex (bytes "#ff0080") (by decide) (by decide)
  have h := ParseHexColor_unit_range _ _ hp
  exact ⟨_, hp, h.1, h.2.1, h.2.2.1⟩

/-- C5: when the string left after one leading `#` is removed has a length other than
3 and 6, `ParseHexColor` returns the zero colour and the error with message
`Bad color string: ` followed by that stripped string. -/
theorem ParseHexColor_bad_length (s : GoString)
    (h3 : (stripHash s).length ≠ 3) (h6 : (stripHash s).length ≠ 6) :
    ParseHexColor s =
      some (⟨0, 0, 0⟩, some (GoError.errorf (bytes "Bad color string: " ++ stripHash s))) := by
  rw [ParseHexColor_cases, if_neg (by omega)]

/-- Instances of C5: `#ab`, the empty string and `#1234567`. -/
theorem ParseHexColor_bad_length_witness :
    ParseHexColor (bytes "#ab") =
      some (⟨0, 0, 0⟩, some (GoError.errorf (bytes "Bad color string: ab"))) ∧
    ParseHexColor (bytes "") =
      some (⟨0, 0, 0⟩, some (GoError.errorf (bytes "Bad color string: "))) ∧
    ParseHexColor (bytes "#1234567") =
      some (⟨0, 0, 0⟩, some (GoError.errorf (bytes "Bad color string: 1234567"))) :=
  ⟨ParseHexColor_bad_length (bytes "#ab") (by decide) (by decide),
   ParseHexColor_bad_length (bytes "") (by decide) (by decide),
   ParseHexColor_bad_length (bytes "#1234567") (by decide) (by decide)⟩

/-- C6: when the string left after one leading `#` is removed has length 3 or 6 and
holds a byte that is not a hexadecimal digit, `ParseHexColor` returns the zero colour
and the error of `strconv.ParseUint` on the six-byte (for shorthand: expanded) string,
which is its syntax error and not a `Bad color string` error. -/
theorem ParseHexColor_bad_digit (s : GoString)
    (hl : (stripHash s).length = 3 ∨ (stripHash s).length = 6)
    (hs : ∃ c ∈ stripHash s, ¬ isHexDigit c) :
    ParseHexColor s = some (⟨0, 0, 0⟩, (ParseUint (expandShort (stripHash s))).2) ∧
      (ParseUint (expandShort (stripHash s))).2 =
        some (syntaxError (expandShort (stripHash s))) ∧
      ∀ msg, (ParseUint (expandShort (stripHash s))).2 ≠ some (GoError.errorf msg) := by
  have hl6 := (expandShort_length _).2 hl
  have hs6 : ∃ c ∈ expandShort (stripHash s), ¬ isHexDigit c := by
    obtain ⟨c, hc, hbad⟩ := hs
    exact ⟨c, (expandShort_mem _ c).2 hc, hbad⟩
  have hp := ParseUint_six_bad _ hl6 hs6
  have hn : ¬ ∀ x ∈ stripHash s, isHexDigit x := by
    push_neg; exact hs
  refine ⟨?_, ?_, ?_⟩
  · rw [ParseHexColor_cases, if_pos hl, if_neg hn, hp]
  · rw [hp]
  · intro msg
    rw [hp]
    simp [syntaxError]

/-- Instances of C6: `xyz` and `#12345g` fail with the syntax error of `ParseUint` on
`xxyyzz` and on `12345g`. -/
theorem ParseHexColor_bad_digit_witness :
    ParseHexColor (bytes "xyz") =
        some (⟨0, 0, 0⟩, some (GoError.numError (bytes "ParseUint") (bytes "xxyyzz")
          NumErrKind.ErrSyntax)) ∧
    ParseHexColor (bytes "#12345g") =
        some (⟨0, 0, 0⟩, some (GoError.numError (bytes "ParseUint") (bytes "12345g")
          NumErrKind.ErrSyntax)) := by
  have a := ParseHexColor_bad_digit (bytes "xyz") (by decide) (by decide)
  have b := ParseHexColor_bad_digit (bytes "#12345g") (by decide) (by decide)
  refine ⟨?_, ?_⟩
  · rw [a.1, a.2.1]; rfl
  · rw [b.1, b.2.1]; rfl

/-- C7: for a string `s` that does not begin with `#`, `ParseHexColor("#" + s)` returns
the same colour and error as `ParseHexColor(s)`. -/
theorem ParseHexColor_hash_optional (s : GoString) (h : s.head? ≠ some 35) :
    ParseHexColor (bytes "#" ++ s) = ParseHexColor s := by
  have e1 : stripHash (bytes "#" ++ s) = s := by rw [bytes_hash]; rfl
  have e2 : stripHash s = s := by
    match s, h with
    | [], _ => rfl
    | c :: t, h =>
      have hc : c ≠ 35 := by
        intro hc; apply h; rw [hc]; rfl
      unfold stripHash; split
      · rename_i heq; simp at heq; exact absurd heq.1 hc
      · rfl
  rw [ParseHexColor_eq, ParseHexColor_eq s, e1, e2]

/-- Instances of C7: `abc123`, `xyz` and the empty string. -/
theorem ParseHexColor_hash_optional_witness :
    ParseHexColor (bytes "#abc123") = ParseHexColor (bytes "abc123") ∧
    ParseHexColor (bytes "#xyz") = ParseHexColor (bytes "xyz") ∧
    ParseHexColor (bytes "#") = ParseHexColor (bytes "") :=
  ⟨ParseHexColor_hash_optional (bytes "abc123") (by decide),
   ParseHexColor_hash_optional (bytes "xyz") (by decide),
   ParseHexColor_hash_optional (bytes "") (by decide)⟩

/-- C8: for a string of 3 or 6 hexadecimal digits, optionally prefixed by `#`,
`ParseHexColor` returns the same result on the string, on its upper-cased form and on
its lower-cased form, and that result is a colour with a nil error. -/
theorem ParseHexColor_case_insensitive (s : GoString)
    (hl : (stripHash s).length = 3 ∨ (stripHash s).length = 6)
    (hs : ∀ c ∈ stripHash s, isHexDigit c) :
    ParseHexColor (ToUpper s) = ParseHexColor s ∧
      ParseHexColor (ToLower s) = ParseHexColor s ∧
      ∃ col, ParseHexColor s = some (col, none) :=
  ⟨ParseHexColor_map toUpperByte toUpperByte_preserving s hl hs,
   ParseHexColor_map toLowerByte toLowerByte_preserving s hl hs,
   (ParseHexColor_ok_iff s).2 ⟨hl, hs⟩⟩

/-- An instance of C8: `#aBc12F`, `#ABC12F` and `#abc12f` parse alike. -/
theorem ParseHexColor_case_insensitive_witness :
    ParseHexColor (bytes "#ABC12F") = ParseHexColor (bytes "#aBc12F") ∧
    ParseHexColor (bytes "#abc12f") = ParseHexColor (bytes "#aBc12F") := by
  have h := ParseHexColor_case_insensitive (bytes "#aBc12F") (by decide) (by decide)
  have e1 : ToUpper (bytes "#aBc12F") = bytes "#ABC12F" := by decide
  have e2 : ToLower (bytes "#aBc12F") = bytes "#abc12f" := by decide
  rw [← e1, ← e2]
  exact ⟨h.1, h.2.1⟩

/-- C10: the alpha result of `RGBA` is the constant 1 for every colour, whatever its
channels (it is not on the 0..255 scale of the other three results); this holds in
exact arithmetic and in `float64` arithmetic alike, a NaN channel included. -/
theorem RGBA_alpha_one (c : Color) :
    c.RGBA.a = 1 ∧ (∀ c2 : Color, c2.RGBA.a = c.RGBA.a) ∧
      ∀ (undef : F64 → Nat) (d : Color64), (d.RGBA undef).a = 1 :=
  ⟨rfl, fun _ => rfl, fun _ _ => rfl⟩

/-! ## The shape of `UnmarshalJSON` -/

theorem ParseHexColor_total (s : GoString) : ∃ r, ParseHexColor s = some r :=
  ⟨_, ParseHexColor_eq s⟩

theorem last_step {α : Type} (b : GoString) (h : b ≠ []) (k : GoString → Option α) :
    (b.get? (b.length - 1)).bind (fun last =>
        (if last = 34 then slice b 0 (b.length - 1) else some b).bind k) =
      k (if b.getLast? = some 34 then b.dropLast else b) := by
  rw [List.get?_eq_getElem?, ← List.getLast?_eq_getElem?, List.getLast?_eq_getLast b h,
    Option.some_bind]
  by_cases hq : b.getLast h = 34
  · rw [if_pos hq, if_pos (by rw [hq])]
    simp [slice, List.dropLast_eq_take]
  · rw [if_neg hq, if_neg (by simpa using hq), Option.some_bind]

theorem first_nonempty (b : GoString) (h : 2 ≤ b.length) :
    (if b.head? = some 34 then b.tail else b) ≠ [] := by
  match b, h with
  | x :: y :: t, _ =>
    by_cases hx : x = 34
    · subst hx
      simp
    · simp [hx]

theorem first_step {α : Type} (b : GoString) (h : 2 ≤ b.length) (k : GoString → Option α) :
    (b.get? 0).bind (fun first =>
        (if first = 34 then slice b 1 b.length else some b).bind k) =
      k (if b.head? = some 34 then b.tail else b) := by
  match b, h with
  | x :: y :: t, _ =>
    by_cases hx : x = 34
    · subst hx
      simp [slice]
    · simp [hx]

/-- On at least two bytes `UnmarshalJSON` hands the quote-stripped bytes to
`ParseHexColor`. -/
theorem UnmarshalJSON_eq (c0 : Color) (b : GoString) (h : 2 ≤ b.length) :
    Color.UnmarshalJSON c0 b =
      (ParseHexColor (stripQuotes b)).map (afterParse c0) := by
  obtain ⟨r, hr⟩ := ParseHexColor_total (stripQuotes b)
  unfold Color.UnmarshalJSON
  rw [if_neg (by omega)]
  simp only [Option.bind_eq_bind]
  rw [first_step b h _, last_step _ (first_nonempty b h)]
  unfold stripQuotes at hr ⊢
  simp only at hr ⊢
  rw [hr]
  obtain ⟨col, err⟩ := r
  cases err <;> rfl

theorem UnmarshalJSON_short (c0 : Color) (b : GoString) (h : b.length < 2) :
    Color.UnmarshalJSON c0 b =
      some (some (GoError.errorf (bytes "Bad color string: " ++ b)), c0) := by
  unfold Color.UnmarshalJSON
  rw [if_pos h]

theorem stripQuotes_quoted (s : GoString) : stripQuotes (quoted s) = s := by
  unfold stripQuotes quoted
  simp

theorem quoted_length (s : GoString) : 2 ≤ (quoted s).length := by
  unfold quoted
  simp only [List.length_append, List.length_singleton]
  omega

theorem stripQuotes_plain (s : GoString) (hh : s.head? ≠ some 34)
    (ht : s.getLast? ≠ some 34) : stripQuotes s = s := by
  unfold stripQuotes
  simp only [if_neg hh, if_neg ht]

theorem stripQuotes_leading (s : GoString) (ht : s.getLast? ≠ some 34) :
    stripQuotes ([34] ++ s) = s := by
  unfold stripQuotes
  simp [if_neg ht]

theorem stripQuotes_trailing (s : GoString) (hne : s ≠ []) (hh : s.head? ≠ some 34) :
    stripQuotes (s ++ [34]) = s := by
  unfold stripQuotes
  have : (s ++ [34]).head? = s.head? := by
    match s, hne with
    | x :: t, _ => rfl
  simp [this, if_neg hh]

/-! ## The claims on deserialization and arithmetic -/

/-- C11: on a byte sequence of length 0 or 1 `UnmarshalJSON` returns a non-nil error
(the `Bad color string` error on the input), whatever the receiver holds. -/
theorem UnmarshalJSON_truncated (c0 : Color) (b : GoString) (h : b.length < 2) :
    (∃ e c1, Color.UnmarshalJSON c0 b = some (some e, c1)) ∧
      Color.UnmarshalJSON c0 b =
        some (some (GoError.errorf (bytes "Bad color string: " ++ b)), c0) :=
  ⟨⟨_, _, UnmarshalJSON_short c0 b h⟩, UnmarshalJSON_short c0 b h⟩

/-- Instances of C11: the one-byte input `a` and the empty input, on two receivers. -/
theorem UnmarshalJSON_truncated_witness :
    Color.UnmarshalJSON Black (bytes "a") =
        some (some (GoError.errorf (bytes "Bad color string: a")), Black) ∧
    Color.UnmarshalJSON Pink [] =
        some (some (GoError.errorf (bytes "Bad color string: ")), Pink) :=
  ⟨(UnmarshalJSON_truncated Black (bytes "a") (by decide)).2,
   (UnmarshalJSON_truncated Pink [] (by decide)).2⟩

/-- C12: on the bytes of `s` between two double quotes `UnmarshalJSON` behaves as
`ParseHexColor(s)`:
when that returns `(col, nil)` it returns nil and the receiver becomes `col`; when that
fails with error `e` it returns `e` (and keeps the receiver). -/
theorem UnmarshalJSON_quoted (c0 : Color) (s : GoString) :
    (∀ col, ParseHexColor s = some (col, none) →
        Color.UnmarshalJSON c0 (quoted s) = some (none, col)) ∧
      (∀ col e, ParseHexColor s = some (col, some e) →
        Color.UnmarshalJSON c0 (quoted s) = some (some e, c0)) ∧
      ∃ r, ParseHexColor s = some r := by
  have h := UnmarshalJSON_eq c0 (quoted s) (quoted_length s)
  rw [stripQuotes_quoted] at h
  refine ⟨fun col hp => ?_, fun col e hp => ?_, ParseHexColor_total s⟩
  · rw [h, hp]; rfl
  · rw [h, hp]; rfl

/-- Instances of C12: the quoted `#abc` populates the receiver with the colour that
`ParseHexColor` returns on `#abc`, and the quoted `xyz` returns the error of
`ParseHexColor` on `xyz`. -/
theorem UnmarshalJSON_quoted_witness :
    (∃ col, ParseHexColor (bytes "#abc") = some (col, none) ∧
      Color.UnmarshalJSON Black (quoted (bytes "#abc")) = some (none, col)) ∧
    (ParseHexColor (bytes "xyz") = some (⟨0, 0, 0⟩, some (syntaxError (bytes "xxyyzz"))) ∧
      Color.UnmarshalJSON Pink (quoted (bytes "xyz")) =
        some (some (syntaxError (bytes "xxyyzz")), Pink)) := by
  have hp := ParseHexColor_of_hex (bytes "#abc") (by decide) (by decide)
  have hq : ParseHexColor (bytes "xyz") =
      some (⟨0, 0, 0⟩, some (syntaxError (bytes "xxyyzz"))) := by
    rw [ParseHexColor_cases, if_pos (by decide), if_neg (by decide)]
    rfl
  exact ⟨⟨_, hp, (UnmarshalJSON_quoted Black (bytes "#abc")).1 _ hp⟩,
    hq, (UnmarshalJSON_quoted Pink (bytes "xyz")).2.1 _ _ hq⟩

/-- C13: for `s` of at least two bytes that neither begins nor ends with a double
quote, `UnmarshalJSON` has the same outcome on `s`, on `s` after a quote, on `s` before
a quote and on `s` between two quotes, the outcome of `ParseHexColor(s)`; and only one
quote is removed from each end: on `s` between two pairs of quotes the outcome is that
of `ParseHexColor` on `s` between two quotes. -/
theorem UnmarshalJSON_positional (c0 : Color) (s : GoString) (hl : 2 ≤ s.length)
    (hh : s.head? ≠ some 34) (ht : s.getLast? ≠ some 34) :
    Color.UnmarshalJSON c0 s = (ParseHexColor s).map (afterParse c0) ∧
      Color.UnmarshalJSON c0 ([34] ++ s) = (ParseHexColor s).map (afterParse c0) ∧
      Color.UnmarshalJSON c0 (s ++ [34]) = (ParseHexColor s).map (afterParse c0) ∧
      Color.UnmarshalJSON c0 (quoted s) = (ParseHexColor s).map (afterParse c0) ∧
      Color.UnmarshalJSON c0 (quoted (quoted s)) =
        (ParseHexColor (quoted s)).map (afterParse c0) := by
  have hne : s ≠ [] := by intro h; rw [h] at hl; simp at hl
  have l1 : 2 ≤ ([34] ++ s).length := by
    simp only [List.length_append, List.length_singleton]; omega
  have l2 : 2 ≤ (s ++ [34]).length := by
    simp only [List.length_append, List.length_singleton]; omega
  refine ⟨?_, ?_, ?_, ?_, ?_⟩
  · rw [UnmarshalJSON_eq c0 s hl, stripQuotes_plain s hh ht]
  · rw [UnmarshalJSON_eq c0 _ l1, stripQuotes_leading s ht]
  · rw [UnmarshalJSON_eq c0 _ l2, stripQuotes_trailing s hne hh]
  · rw [UnmarshalJSON_eq c0 _ (quoted_length s), stripQuotes_quoted]
  · rw [UnmarshalJSON_eq c0 _ (quoted_length _), stripQuotes_quoted]

/-- An instance of C13: `#abc` bare, with a leading quote, with a trailing quote and
with both populates the receiver with the colour of `ParseHexColor` on `#abc`. -/
theorem UnmarshalJSON_positional_witness :
    ∃ col, ParseHexColor (bytes "#abc") = some (col, none) ∧
      Color.UnmarshalJSON Black (bytes "#abc") = some (none, col) ∧
      Color.UnmarshalJSON Black ([34] ++ bytes "#abc") = some (none, col) ∧
      Color.UnmarshalJSON Black (bytes "#abc" ++ [34]) = some (none, col) ∧
      Color.UnmarshalJSON Black (quoted (bytes "#abc")) = some (none, col) := by
  have hp := ParseHexColor_of_hex (bytes "#abc") (by decide) (by decide)
  have h := UnmarshalJSON_positional Black (bytes "#abc") (by decide) (by decide) (by decide)
  rw [hp] at h
  exact ⟨_, hp, h.1, h.2.1, h.2.2.1, h.2.2.2.1⟩

/-- C17: scaling by `f` and then by `g` is scaling by `f * g` (channels being exact
rationals). -/
theorem MulS_MulS (a : Color) (f g : ℚ) : (a.MulS f).MulS g = a.MulS (f * g) := by
  simp only [Color.MulS, mul_assoc]

/-- C18: `ParseHexColor` and `UnmarshalJSON` return a result on every input, no slice
or index expression being out of range: the three slices of a three-byte string are in
range, and on at least two bytes the last byte read after a leading quote is removed is
in range. -/
theorem no_panic (s b c : GoString) (c0 : Color) :
    (∃ r, ParseHexColor s = some r) ∧ (∃ r, Color.UnmarshalJSON c0 b = some r) ∧
      (c.length = 3 → ∃ x y z, slice c 0 1 = some x ∧ slice c 1 2 = some y ∧
        slice c 2 c.length = some z) ∧
      (2 ≤ b.length → ∃ v, (if b.head? = some 34 then b.tail else b).get?
        ((if b.head? = some 34 then b.tail else b).length - 1) = some v) := by
  refine ⟨ParseHexColor_total s, ?_, ?_, ?_⟩
  · by_cases h : b.length < 2
    · exact ⟨_, UnmarshalJSON_short c0 b h⟩
    · obtain ⟨r, hr⟩ := ParseHexColor_total (stripQuotes b)
      exact ⟨_, by rw [UnmarshalJSON_eq c0 b (by omega), hr]; rfl⟩
  · intro h
    unfold slice
    exact ⟨_, _, _, if_pos (by omega), if_pos (by omega), if_pos (by omega)⟩
  · intro h
    have hne := first_nonempty b h
    rw [List.get?_eq_getElem?, ← List.getLast?_eq_getElem?, List.getLast?_eq_getLast _ hne]
    exact ⟨_, rfl⟩

/-- Instances of C18: the edge inputs of `UnmarshalJSON` (two quotes; a quote and `x`;
`x` and a quote) and of `ParseHexColor` (empty, `#`, three bytes) give a result. -/
theorem no_panic_witness :
    (∃ r, Color.UnmarshalJSON Black [34, 34] = some r) ∧
    (∃ r, Color.UnmarshalJSON Black [34, 120] = some r) ∧
    (∃ r, Color.UnmarshalJSON Black [120, 34] = some r) ∧
    (∃ r, ParseHexColor [] = some r) ∧ (∃ r, ParseHexColor [35] = some r) ∧
    (∃ r, ParseHexColor [120, 121, 122] = some r) ∧
    (∃ x y z, slice [120, 121, 122] 0 1 = some x ∧ slice [120, 121, 122] 1 2 = some y ∧
      slice [120, 121, 122] 2 3 = some z) :=
  ⟨(no_panic [] [34, 34] [] Black).2.1, (no_panic [] [34, 120] [] Black).2.1,
   (no_panic [] [120, 34] [] Black).2.1, (no_panic [] [] [] Black).1,
   (no_panic [35] [] [] Black).1, (no_panic [120, 121, 122] [] [] Black).1,
   (no_panic [] [] [120, 121, 122] Black).2.2.1 (by decide)⟩

/-- C19: when `UnmarshalJSON` returns a non-nil error the receiver is unchanged; when
it returns nil the receiver is the colour that `ParseHexColor` returned, all three
channels of it. -/
theorem UnmarshalJSON_atomic (c0 : Color) (b : GoString) :
    (∀ e c1, Color.UnmarshalJSON c0 b = some (some e, c1) → c1 = c0) ∧
      (∀ c1, Color.UnmarshalJSON c0 b = some (none, c1) →
        ParseHexColor (stripQuotes b) = some (c1, none)) := by
  by_cases h : b.length < 2
  · rw [UnmarshalJSON_short c0 b h]
    refine ⟨fun e c1 he => ?_, fun c1 he => ?_⟩
    · exact ((Prod.mk.inj (Option.some.inj he)).2).symm
    · simp at he
  · obtain ⟨⟨col, err⟩, hr⟩ := ParseHexColor_total (stripQuotes b)
    rw [UnmarshalJSON_eq c0 b (by omega), hr]
    cases err with
    | none =>
      refine ⟨fun e c1 he => ?_, fun c1 he => ?_⟩
      · simp [afterParse] at he
      · simp only [Option.map_some', afterParse, Option.some.injEq, Prod.mk.injEq,
          true_and] at he
        rw [he]
    | some e0 =>
      refine ⟨fun e c1 he => ?_, fun c1 he => ?_⟩
      · simp only [Option.map_some', afterParse, Option.some.injEq, Prod.mk.injEq] at he
        exact he.2.symm
      · simp [afterParse] at he

/-- Instances of C19: on a receiver holding `Pink`, the one-byte input `a`, the
wrong-length `#ab` and the malformed `xyz` return an error and leave `Pink`; the quoted
`#abc` returns nil and leaves the parsed colour. -/
theorem UnmarshalJSON_atomic_witness :
    (∃ e c1, Color.UnmarshalJSON Pink (bytes "a") = some (some e, c1) ∧ c1 = Pink) ∧
    (∃ e c1, Color.UnmarshalJSON Pink (bytes "#ab") = some (some e, c1) ∧ c1 = Pink) ∧
    (∃ e c1, Color.UnmarshalJSON Pink (bytes "xyz") = some (some e, c1) ∧ c1 = Pink) ∧
    (∃ c1, Color.UnmarshalJSON Pink (quoted (bytes "#abc")) = some (none, c1) ∧
      ParseHexColor (bytes "#abc") = some (c1, none)) := by
  have ha : Color.UnmarshalJSON Pink (bytes "a") =
      some (some (GoError.errorf (bytes "Bad color string: a")), Pink) :=
    UnmarshalJSON_short _ _ (by decide)
  have hb : Color.UnmarshalJSON Pink (bytes "#ab") =
      some (some (GoError.errorf (bytes "Bad color string: ab")), Pink) := by
    rw [UnmarshalJSON_eq _ _ (by decide), ParseHexColor_cases, if_neg (by decide)]; rfl
  have hc : Color.UnmarshalJSON Pink (bytes "xyz") =
      some (some (syntaxError (bytes "xxyyzz")), Pink) := by
    rw [UnmarshalJSON_eq _ _ (by decide), ParseHexColor_cases, if_pos (by decide),
      if_neg (by decide)]; rfl
  obtain ⟨r, hr⟩ : ∃ r, ParseHexColor (bytes "#abc") = some (r, none) :=
    ⟨_, ParseHexColor_of_hex _ (by decide) (by decide)⟩
  have hd : Color.UnmarshalJSON Pink (quoted (bytes "#abc")) = some (none, r) := by
    rw [UnmarshalJSON_eq _ _ (by decide), stripQuotes_quoted, hr]; rfl
  refine ⟨⟨_, _, ha, ?_⟩, ⟨_, _, hb, ?_⟩, ⟨_, _, hc, ?_⟩, ⟨_, hd, ?_⟩⟩
  · exact (UnmarshalJSON_atomic Pink (bytes "a")).1 _ _ ha
  · exact (UnmarshalJSON_atomic Pink (bytes "#ab")).1 _ _ hb
  · exact (UnmarshalJSON_atomic Pink (bytes "xyz")).1 _ _ hc
  · have := (UnmarshalJSON_atomic Pink (quoted (bytes "#abc"))).2 _ hd
    rwa [stripQuotes_quoted] at this

theorem byte_roundtrip (k : Nat) (h : k ≤ 255) :
    toUint32 (clamp ((k : ℚ) / 255) * 255) = k := by
  obtain ⟨h0, h1⟩ := unit_of_byte k h
  rw [(channel_RGBA ((k : ℚ) / 255)).1, if_neg (not_lt.2 h0), if_neg (not_lt.2 h1)]
  have e : (255 : ℚ) * ((k : ℚ) / 255) = ((k : ℤ) : ℚ) := by
    push_cast; field_simp
  rw [e, Int.floor_intCast, Int.toNat_ofNat]

/-- C20: for six hexadecimal digits with 24-bit value `n`, with or without a leading
`#`, `ParseHexColor` returns a colour `c` whose `RGBA` is `r` = bits 16-23 of `n`,
`g` = bits 8-15, `b` = bits 0-7 and `a = 1` (channels being exact rationals). -/
theorem ParseHexColor_RGBA_roundtrip (d1 d2 d3 d4 d5 d6 : Nat)
    (h1 : isHexDigit d1) (h2 : isHexDigit d2) (h3 : isHexDigit d3)
    (h4 : isHexDigit d4) (h5 : isHexDigit d5) (h6 : isHexDigit d6) :
    ∃ c : Color, ParseHexColor [d1, d2, d3, d4, d5, d6] = some (c, none) ∧
      ParseHexColor (bytes "#" ++ [d1, d2, d3, d4, d5, d6]) = some (c, none) ∧
      c.RGBA =
        { r := hexNum [d1, d2, d3, d4, d5, d6] / 2 ^ 16 % 2 ^ 8
          g := hexNum [d1, d2, d3, d4, d5, d6] / 2 ^ 8 % 2 ^ 8
          b := hexNum [d1, d2, d3, d4, d5, d6] % 2 ^ 8
          a := 1 } := by
  have hs : ∀ x ∈ [d1, d2, d3, d4, d5, d6], isHexDigit x := by
    intro x hx
    simp only [List.mem_cons, List.mem_singleton, List.not_mem_nil, or_false] at hx
    rcases hx with rfl | rfl | rfl | rfl | rfl | rfl <;> assumption
  have hst : stripHash [d1, d2, d3, d4, d5, d6] = [d1, d2, d3, d4, d5, d6] :=
    stripHash_of_hex _ _ h1
  have hst2 : stripHash (bytes "#" ++ [d1, d2, d3, d4, d5, d6]) = [d1, d2, d3, d4, d5, d6] := by
    rw [bytes_hash]; rfl
  have hex : expandShort [d1, d2, d3, d4, d5, d6] = [d1, d2, d3, d4, d5, d6] := rfl
  have hlt := hexNum_six_lt [d1, d2, d3, d4, d5, d6] rfl hs
  have p1 := ParseHexColor_of_hex [d1, d2, d3, d4, d5, d6]
    (by rw [hst]; right; rfl) (by rw [hst]; exact hs)
  have p2 := ParseHexColor_of_hex (bytes "#" ++ [d1, d2, d3, d4, d5, d6])
    (by rw [hst2]; right; rfl) (by rw [hst2]; exact hs)
  rw [hst, hex] at p1
  rw [hst2, hex] at p2
  refine ⟨_, p1, p2, ?_⟩
  have b1 : hexNum [d1, d2, d3, d4, d5, d6] / 65536 ≤ 255 := by omega
  have b2 : hexNum [d1, d2, d3, d4, d5, d6] / 256 % 256 ≤ 255 := by omega
  have b3 : hexNum [d1, d2, d3, d4, d5, d6] % 256 ≤ 255 := by omega
  have e1 : hexNum [d1, d2, d3, d4, d5, d6] / 2 ^ 16 % 2 ^ 8 =
      hexNum [d1, d2, d3, d4, d5, d6] / 65536 := by norm_num; omega
  simp only [Color.RGBA, byte_roundtrip _ b1, byte_roundtrip _ b2, byte_roundtrip _ b3, e1]
  norm_num

/-- Instances of C20: `#ff0080` is displayed as `(255, 0, 128, 1)` and `1a2B3c` as
`(26, 43, 60, 1)`. -/
theorem ParseHexColor_RGBA_roundtrip_witness :
    (∃ c : Color, ParseHexColor (bytes "#ff0080") = some (c, none) ∧
      c.RGBA = ⟨255, 0, 128, 1⟩) ∧
    (∃ c : Color, ParseHexColor (bytes "1a2B3c") = some (c, none) ∧
      c.RGBA = ⟨26, 43, 60, 1⟩) := by
  obtain ⟨c, -, hc, hr⟩ := ParseHexColor_RGBA_roundtrip 102 102 48 48 56 48
    (by decide) (by decide) (by decide) (by decide) (by decide) (by decide)
  obtain ⟨c2, hc2, -, hr2⟩ := ParseHexColor_RGBA_roundtrip 49 97 50 66 51 99
    (by decide) (by decide) (by decide) (by decide) (by decide) (by decide)
  have ea : bytes "#ff0080" = bytes "#" ++ [102, 102, 48, 48, 56, 48] := by decide
  have eb : bytes "1a2B3c" = [49, 97, 50, 66, 51, 99] := by decide
  have n1 : hexNum [102, 102, 48, 48, 56, 48] = 16711808 := by decide
  have n2 : hexNum [49, 97, 50, 66, 51, 99] = 1715004 := by decide
  rw [n1] at hr
  rw [n2] at hr2
  exact ⟨⟨c, by rw [ea]; exact hc, by rw [hr]; norm_num⟩,
    ⟨c2, by rw [eb]; exact hc2, by rw [hr2]; norm_num⟩⟩

/-! ## Lemmas on `float64` arithmetic -/

theorem bitLengthAux_le : ∀ (fuel n k : Nat), n < 2 ^ k → bitLengthAux fuel n ≤ k
  | 0, _, _, _ => by simp [bitLengthAux]
  | fuel + 1, n, k, h => by
    rw [bitLengthAux]
    split_ifs with h0
    · exact Nat.zero_le _
    · match k, h with
      | 0, h => simp at h; exact absurd h h0
      | k + 1, h =>
        have : n / 2 < 2 ^ k := by rw [Nat.pow_succ] at h; omega
        have := bitLengthAux_le fuel (n / 2) k this
        omega

theorem bitLengthAux_ge : ∀ (fuel n k : Nat), n ≤ fuel → 2 ^ k ≤ n →
    k + 1 ≤ bitLengthAux fuel n
  | 0, n, k, hf, h => by
    have : 0 < 2 ^ k := Nat.two_pow_pos k
    omega
  | fuel + 1, n, k, hf, h => by
    have hpos : 0 < 2 ^ k := Nat.two_pow_pos k
    rw [bitLengthAux, if_neg (by omega)]
    match k, h with
    | 0, _ => omega
    | k + 1, h =>
      have h2 : 2 ^ k ≤ n / 2 := by rw [Nat.pow_succ] at h; omega
      have hk : 0 < 2 ^ k := Nat.two_pow_pos k
      have := bitLengthAux_ge fuel (n / 2) k (by omega) h2
      omega

theorem bitLength_le (n k : Nat) (h : n < 2 ^ k) : bitLength n ≤ k :=
  bitLengthAux_le n n k h

theorem bitLength_ge (n k : Nat) (h : 2 ^ k ≤ n) : k + 1 ≤ bitLength n :=
  bitLengthAux_ge n n k le_rfl h

theorem bitLength_eq (n k : Nat) (h1 : 2 ^ k ≤ n) (h2 : n < 2 ^ (k + 1)) :
    bitLength n = k + 1 :=
  le_antisymm (bitLength_le n _ h2) (bitLength_ge n k h1)

theorem bitLength_zero : bitLength 0 = 0 := rfl

theorem bitLength_pos (n : Nat) (h : n ≠ 0) : 1 ≤ bitLength n :=
  bitLength_ge n 0 (by simpa using Nat.pos_of_ne_zero h)

theorem bitLength_bounds (n : Nat) (h : n ≠ 0) :
    2 ^ (bitLength n - 1) ≤ n ∧ n < 2 ^ bitLength n := by
  constructor
  · by_contra hc
    have := bitLength_le n _ (not_le.1 hc)
    have := bitLength_pos n h
    omega
  · by_contra hc
    have := bitLength_ge n _ (not_lt.1 hc)
    omega

theorem bitLength_shift (n d : Nat) (h : n ≠ 0) :
    bitLength (n <<< d) = bitLength n + d := by
  obtain ⟨h1, h2⟩ := bitLength_bounds n h
  have hp := bitLength_pos n h
  rw [Nat.shiftLeft_eq]
  have e : bitLength n + d = (bitLength n - 1 + d) + 1 := by omega
  rw [e]
  apply bitLength_eq
  · rw [Nat.pow_add]; exact Nat.mul_le_mul_right _ h1
  · have : bitLength n - 1 + d + 1 = bitLength n + d := by omega
    rw [this, Nat.pow_add]
    exact Nat.mul_lt_mul_of_lt_of_le h2 le_rfl (Nat.two_pow_pos d)

namespace F64

theorem mant_lt (e : Fin 2047) (f : Fin (2 ^ 52)) : mant e f < 2 ^ 53 := by
  have := f.isLt
  unfold mant
  split_ifs <;> omega

theorem one_shiftLeft_ne_zero (d : Nat) : (1 : Nat) <<< d ≠ 0 := by
  rw [Nat.shiftLeft_eq, Nat.one_mul]
  exact (Nat.two_pow_pos d).ne'

theorem fin_eq (s : Bool) (e e2 : Fin 2047) (f f2 : Fin (2 ^ 52)) (he : e.val = e2.val)
    (hf : f.val = f2.val) : fin s e f = fin s e2 f2 := by
  rw [Fin.ext he, Fin.ext hf]

theorem pack_small (s : Bool) (m : Nat) (q : Int) (h : m < 2 ^ 52) :
    pack s m q = fin s ⟨0, by decide⟩ ⟨m % 2 ^ 52, Nat.mod_lt _ (Nat.two_pow_pos 52)⟩ := by
  have h53 : m ≠ 2 ^ 53 := by omega
  unfold pack
  simp only [if_neg h53]
  rw [if_pos h]

theorem pack_normal (s : Bool) (m : Nat) (q : Int) (h1 : 2 ^ 52 ≤ m) (h2 : m < 2 ^ 53)
    (hq : q ≤ 971) :
    pack s m q = fin s ⟨(q + 1075).toNat % 2047, Nat.mod_lt _ (by decide)⟩
      ⟨(m - 2 ^ 52) % 2 ^ 52, Nat.mod_lt _ (Nat.two_pow_pos 52)⟩ := by
  have h53 : m ≠ 2 ^ 53 := by omega
  unfold pack
  simp only [if_neg h53]
  rw [if_neg (by omega), if_neg (by omega)]

theorem pack_decode (s : Bool) (e : Fin 2047) (f : Fin (2 ^ 52)) :
    pack s (mant e f) (expo e) = fin s e f := by
  have hf := f.isLt
  have he := e.isLt
  by_cases h0 : e.val = 0
  · have hmv : mant e f = f.val := by unfold mant; rw [if_pos h0]
    rw [pack_small s _ _ (by rw [hmv]; exact hf)]
    apply fin_eq
    · exact h0.symm
    · simp only [hmv]; exact Nat.mod_eq_of_lt hf
  · have hmv : mant e f = 2 ^ 52 + f.val := by unfold mant; rw [if_neg h0]
    have hev : expo e = (e.val : Int) - 1075 := by unfold expo; rw [if_neg h0]
    rw [pack_normal s _ _ (by rw [hmv]; omega) (by rw [hmv]; omega) (by rw [hev]; omega)]
    apply fin_eq
    · simp only [hev]
      have : ((e.val : Int) - 1075 + 1075).toNat = e.val := by omega
      rw [this]; exact Nat.mod_eq_of_lt he
    · simp only [hmv]
      rw [Nat.add_sub_cancel_left]; exact Nat.mod_eq_of_lt hf

theorem pack_zero (s : Bool) (q : Int) :
    pack s 0 q = fin s ⟨0, by decide⟩ ⟨0, Nat.two_pow_pos 52⟩ := by
  rw [pack_small s 0 q (Nat.two_pow_pos 52)]
  rfl

theorem round_zero (s : Bool) (E : Int) :
    round s 0 E = fin s ⟨0, by decide⟩ ⟨0, Nat.two_pow_pos 52⟩ := by
  unfold round
  simp only [Nat.zero_shiftLeft, Nat.zero_shiftRight, Nat.sub_zero, Nat.mul_zero]
  by_cases h : max (((bitLength 0 : Nat) : Int) - 1 + E - 52) (-1074) ≤ E
  · rw [if_pos h]; exact pack_zero s _
  · rw [if_neg h]
    have h1 := one_shiftLeft_ne_zero
      (max (((bitLength 0 : Nat) : Int) - 1 + E - 52) (-1074) - E).toNat
    have h2 : ¬ (0 > (1 : Nat) <<<
      (max (((bitLength 0 : Nat) : Int) - 1 + E - 52) (-1074) - E).toNat) := Nat.not_lt_zero _
    simp only [h2, h1.symm, decide_False, Bool.false_and, Bool.or_false, Bool.false_eq_true,
      if_false]
    exact pack_zero s _

theorem round_exact (s : Bool) (e : Fin 2047) (f : Fin (2 ^ 52)) (d : Nat) :
    round s (mant e f <<< d) (expo e - d) = fin s e f := by
  by_cases hm : mant e f = 0
  · have hx : fin s e f = fin s ⟨0, by decide⟩ ⟨0, Nat.two_pow_pos 52⟩ := by
      obtain ⟨ev, he⟩ := e
      obtain ⟨fv, hf⟩ := f
      unfold mant at hm
      simp only at hm
      split_ifs at hm with h0
      · subst h0; subst hm; rfl
      · omega
    rw [hm, Nat.zero_shiftLeft, round_zero, hx]
  · have hlt := mant_lt e f
    have hb := bitLength_shift (mant e f) d hm
    have hq : max (((bitLength (mant e f <<< d) : Nat) : Int) - 1 + (expo e - d) - 52) (-1074)
        = expo e := by
      rw [hb]
      have hf := f.isLt
      by_cases h0 : e.val = 0
      · have hmv : mant e f = f.val := by unfold mant; rw [if_pos h0]
        have hev : expo e = -1074 := by unfold expo; rw [if_pos h0]; rfl
        have := bitLength_le f.val 52 hf
        rw [hmv, hev]
        omega
      · have hmv : mant e f = 2 ^ 52 + f.val := by unfold mant; rw [if_neg h0]
        have hev : expo e = (e.val : Int) - 1075 := by unfold expo; rw [if_neg h0]
        have := bitLength_eq (2 ^ 52 + f.val) 52 (by omega) (by omega)
        rw [hmv, hev, this]
        omega
    unfold round
    simp only [hq]
    by_cases hd : d = 0
    · subst hd
      simp only [Nat.shiftLeft_zero, Nat.cast_zero, sub_zero, le_refl, if_true, sub_self,
        Int.toNat_zero]
      exact pack_decode s e f
    · rw [if_neg (by omega)]
      have hs : (expo e - (expo e - (d : Int))).toNat = d := by
        have : expo e - (expo e - (d : Int)) = d := by ring
        rw [this]; exact Int.toNat_ofNat d
      simp only [hs]
      have hm2 : (mant e f <<< d) >>> d = mant e f := by
        rw [Nat.shiftLeft_eq, Nat.shiftRight_eq_div_pow]
        exact Nat.mul_div_cancel _ (Nat.two_pow_pos d)
      simp only [hm2, Nat.sub_self, Nat.mul_zero]
      have h1 : ¬ (0 > (1 : Nat) <<< d) := Nat.not_lt_zero _
      have h2 := one_shiftLeft_ne_zero d
      simp only [h1, h2.symm, decide_False, Bool.false_and, Bool.or_false, Bool.false_eq_true,
        if_false]
      exact pack_decode s e f

theorem add_comm (x y : F64) : add x y = add y x := by
  cases x with
  | nan => cases y <;> rfl
  | inf s =>
    cases y with
    | nan => rfl
    | inf t =>
      cases s <;> cases t <;> rfl
    | fin t e f => rfl
  | fin s e f =>
    cases y with
    | nan => rfl
    | inf t => rfl
    | fin t e2 f2 =>
      simp only [add, min_comm (expo e) (expo e2), Int.add_comm, Bool.and_comm s t]

theorem eq_self (x : F64) : eq x x = !x.isNaN := by
  cases x <;> simp [eq, key, isNaN]

theorem expo_ge (e : Fin 2047) : -1074 ≤ expo e := by
  unfold expo
  split_ifs <;> omega

theorem mant_eq_zero (s : Bool) (e : Fin 2047) (f : Fin (2 ^ 52)) (h : mant e f = 0) :
    key (fin s e f) = some 0 := by
  have hf := f.isLt
  unfold mant at h
  simp only [key]
  split_ifs at h with h0
  · rw [h0, h]; simp
  · omega

theorem add_fin_zero (s : Bool) (e : Fin 2047) (f : Fin (2 ^ 52)) :
    add (fin s e f) (fin false 0 0) =
      if mant e f = 0 then fin false 0 0 else fin s e f := by
  have hge := expo_ge e
  have hz : expo (0 : Fin 2047) = -1074 := rfl
  have hm0 : mant (0 : Fin 2047) (0 : Fin (2 ^ 52)) = 0 := rfl
  have hmin : min (expo e) (-1074) = -1074 := min_eq_right hge
  obtain ⟨d, hd⟩ : ∃ d : Nat, (expo e - -1074).toNat = d := ⟨_, rfl⟩
  have hE : expo e - (d : Int) = -1074 := by omega
  have hr := round_exact s e f d
  rw [hE] at hr
  simp only [add, hz, hm0, hmin, Nat.zero_shiftLeft, Nat.cast_zero, mul_zero, add_zero,
    Bool.and_false, hd]
  by_cases hm : mant e f = 0
  · rw [if_pos hm]
    have hx : ((if s = true then -1 else 1) * ((mant e f <<< d : Nat) : Int)) = 0 := by
      rw [hm, Nat.zero_shiftLeft]; simp
    rw [if_pos hx]
    rfl
  · rw [if_neg hm]
    have hpos : 0 < mant e f <<< d := by
      rw [Nat.shiftLeft_eq]
      exact Nat.mul_pos (Nat.pos_of_ne_zero hm) (Nat.two_pow_pos _)
    cases s with
    | false =>
      have hx : ((if false = true then -1 else 1) * ((mant e f <<< d : Nat) : Int)) =
          ((mant e f <<< d : Nat) : Int) := by simp
      have hne : ((mant e f <<< d : Nat) : Int) ≠ 0 := by omega
      have hneg : decide (((mant e f <<< d : Nat) : Int) < 0) = false := by simp
      rw [hx, if_neg hne, hneg, Int.natAbs_ofNat, hr]
    | true =>
      have hx : ((if true = true then -1 else 1) * ((mant e f <<< d : Nat) : Int)) =
          -((mant e f <<< d : Nat) : Int) := by simp
      have hne : -((mant e f <<< d : Nat) : Int) ≠ 0 := by omega
      have hneg : decide (-((mant e f <<< d : Nat) : Int) < 0) = true := by
        rw [decide_eq_true_eq]; omega
      rw [hx, if_neg hne, hneg, Int.natAbs_neg, Int.natAbs_ofNat, hr]

theorem add_zero_eq (x : F64) : eq (add x (fin false 0 0)) x = !x.isNaN := by
  cases x with
  | nan => rfl
  | inf s => cases s <;> decide
  | fin s e f =>
    rw [add_fin_zero]
    by_cases hm : mant e f = 0
    · rw [if_pos hm]
      have hk := mant_eq_zero s e f hm
      have hk0 : key (fin false 0 0) = some 0 := by decide
      simp only [eq, hk, hk0, isNaN]
      decide
    · rw [if_neg hm, eq_self]

theorem mul_one (x : F64) : mul x (fin false 1023 0) = x := by
  have hm1 : mant (1023 : Fin 2047) (0 : Fin (2 ^ 52)) = 2 ^ 52 := rfl
  have he1 : expo (1023 : Fin 2047) = -52 := rfl
  cases x with
  | nan => rfl
  | inf s =>
    simp only [mul, hm1, if_neg (Nat.two_pow_pos 52).ne', Bool.xor_false]
  | fin s e f =>
    simp only [mul, hm1, he1, Bool.xor_false, ← Nat.shiftLeft_eq]
    exact round_exact s e f 52

theorem truncNat_sub (f : Fin (2 ^ 52)) : truncNat 0 f = 0 := by
  have hf := f.isLt
  have he : expo (0 : Fin 2047) = -1074 := rfl
  have hm : mant 0 f = f.val := rfl
  unfold truncNat
  rw [he, hm, if_neg (by omega)]
  have key : ∀ k : Nat, 52 ≤ k → f.val >>> k = 0 := fun k hk => by
    rw [Nat.shiftRight_eq_div_pow]
    exact Nat.div_eq_of_lt (lt_of_lt_of_le hf (Nat.pow_le_pow_right (by decide) hk))
  have : (-(-1074 : Int)).toNat = 1074 := rfl
  rw [this]
  exact key 1074 (by omega)

theorem truncNat_normal (ev fv g : Nat) (he : ev < 2047) (hf : fv < 2 ^ 52) (h0 : ev ≠ 0)
    (hg : (ev : Int) - 1075 = -(g : Int)) :
    truncNat ⟨ev, he⟩ ⟨fv, hf⟩ = (2 ^ 52 + fv) / 2 ^ g := by
  have hexp : expo ⟨ev, he⟩ = -(g : Int) := by
    unfold expo; simp only; rw [if_neg h0]; exact hg
  have hm : mant ⟨ev, he⟩ ⟨fv, hf⟩ = 2 ^ 52 + fv := by
    unfold mant; simp only; rw [if_neg h0]
  unfold truncNat
  rw [hexp, hm]
  by_cases hz : g = 0
  · subst hz
    simp
  · rw [if_neg (by omega)]
    have : (-(-(g : Int))).toNat = g := by omega
    rw [this, Nat.shiftRight_eq_div_pow]

theorem div_le_of_le_mul (m g B : Nat) (hm : m ≤ B * 2 ^ g) : m / 2 ^ g ≤ B := by
  calc m / 2 ^ g ≤ (B * 2 ^ g) / 2 ^ g := Nat.div_le_div_right hm
    _ = B := Nat.mul_div_cancel _ (Nat.two_pow_pos g)

theorem pack_trunc_le (m g B : Nat) (hm : m ≤ B * 2 ^ g) (hB : B < 2 ^ 32) (hg : g ≤ 1074) :
    ∃ e f, pack false m (-(g : Int)) = fin false e f ∧ truncNat e f ≤ B := by
  by_cases hs : m < 2 ^ 52
  · rw [pack_small false m _ hs]
    exact ⟨_, _, rfl, le_of_eq_of_le (truncNat_sub _) (Nat.zero_le _)⟩
  · by_cases h53 : m = 2 ^ 53
    · -- the carry: the value is 2 ^ 53 * 2 ^ (-g)
      have hg22 : 22 ≤ g := by
        by_contra hc
        have h1 : 2 ^ g ≤ 2 ^ 21 := Nat.pow_le_pow_right (by norm_num) (by omega)
        have h2 : B * 2 ^ g ≤ B * 2 ^ 21 := Nat.mul_le_mul_left _ h1
        have h3 : B * 2 ^ 21 < 2 ^ 32 * 2 ^ 21 :=
          Nat.mul_lt_mul_of_lt_of_le hB le_rfl (Nat.two_pow_pos 21)
        rw [h53] at hm
        norm_num at hm h2 h3
        omega
      have hp : pack false m (-(g : Int)) =
          fin false ⟨1076 - g, by omega⟩ ⟨0, Nat.two_pow_pos 52⟩ := by
        unfold pack
        simp only [if_pos h53]
        rw [if_neg (lt_irrefl _), if_neg (by omega)]
        apply fin_eq
        · simp only
          have : (-(g : Int) + 1 + 1075).toNat = 1076 - g := by omega
          rw [this]; exact Nat.mod_eq_of_lt (by omega)
        · simp
      refine ⟨_, _, hp, ?_⟩
      rw [truncNat_normal (1076 - g) 0 (g - 1) _ _ (by omega) (by omega)]
      have e1 : (2 ^ 52 + 0) / 2 ^ (g - 1) = 2 ^ 53 / 2 ^ g := by
        have a : (2 : Nat) ^ 53 = 2 ^ 52 * 2 := by norm_num
        have b : (2 : Nat) ^ g = 2 ^ (g - 1) * 2 := by
          rw [← Nat.pow_succ]; congr 1; omega
        rw [Nat.add_zero, a, b, Nat.mul_div_mul_right _ _ (by norm_num : 0 < 2)]
      rw [e1, ← h53]
      exact div_le_of_le_mul m g B hm
    · have hq : -(g : Int) ≤ 971 := by omega
      have hp : pack false m (-(g : Int)) =
          fin false ⟨1075 - g, by omega⟩
            ⟨(m - 2 ^ 52) % 2 ^ 52, Nat.mod_lt _ (Nat.two_pow_pos 52)⟩ := by
        unfold pack
        simp only [if_neg h53]
        rw [if_neg hs, if_neg (by omega)]
        apply fin_eq
        · simp only
          have : (-(g : Int) + 1075).toNat = 1075 - g := by omega
          rw [this]; exact Nat.mod_eq_of_lt (by omega)
        · rfl
      refine ⟨_, _, hp, ?_⟩
      rw [truncNat_normal (1075 - g) _ g _ _ (by omega) (by omega)]
      have hle : 2 ^ 52 + (m - 2 ^ 52) % 2 ^ 52 ≤ m := by
        have := Nat.mod_le (m - 2 ^ 52) (2 ^ 52)
        omega
      exact le_trans (Nat.div_le_div_right hle) (div_le_of_le_mul m g B hm)

theorem round_trunc_le (M G B : Nat) (hB : B < 2 ^ 32) (hM : M ≤ B * 2 ^ G) :
    ∃ e f, round false M (-(G : Int)) = fin false e f ∧ truncNat e f ≤ B := by
  have hlt : M < 2 ^ (32 + G) := by
    rw [Nat.pow_add]
    exact lt_of_le_of_lt hM (Nat.mul_lt_mul_of_lt_of_le hB le_rfl (Nat.two_pow_pos G))
  have hlen := bitLength_le M _ hlt
  obtain ⟨g, hg, hg2⟩ : ∃ g : Nat,
      max (((bitLength M : Nat) : Int) - 1 + -(G : Int) - 52) (-1074) = -(g : Int) ∧
        g ≤ 1074 := by
    refine ⟨(-(max (((bitLength M : Nat) : Int) - 1 + -(G : Int) - 52) (-1074))).toNat, ?_, ?_⟩
    · omega
    · omega
  unfold round
  simp only [hg]
  by_cases hle : -(g : Int) ≤ -(G : Int)
  · rw [if_pos hle]
    have hs : (-(G : Int) - -(g : Int)).toNat = g - G := by omega
    rw [hs, Nat.shiftLeft_eq]
    apply pack_trunc_le _ g B _ hB hg2
    have hG : g = G + (g - G) := by omega
    calc M * 2 ^ (g - G) ≤ B * 2 ^ G * 2 ^ (g - G) := Nat.mul_le_mul_right _ hM
      _ = B * 2 ^ g := by rw [Nat.mul_assoc, ← Nat.pow_add, ← hG]
  · rw [if_neg hle]
    obtain ⟨s, hs, hGs⟩ : ∃ s : Nat, (-(g : Int) - -(G : Int)).toNat = s ∧ G = g + s :=
      ⟨_, rfl, by omega⟩
    simp only [hs]
    have hpow : 2 ^ G = 2 ^ g * 2 ^ s := by rw [hGs, Nat.pow_add]
    have hm : M >>> s ≤ B * 2 ^ g := by
      rw [Nat.shiftRight_eq_div_pow]
      apply (Nat.div_le_iff_le_mul_add_pred (Nat.two_pow_pos s)).2
      have : M ≤ 2 ^ s * (B * 2 ^ g) := by
        rw [Nat.mul_comm, Nat.mul_assoc, ← hpow]; exact hM
      omega
    apply pack_trunc_le _ g B _ hB hg2
    split_ifs with hup
    · -- rounding up: the quotient is below the bound
      by_contra hc
      have heq : M >>> s = B * 2 ^ g := by omega
      have hr : M - (M >>> s) <<< s = 0 := by
        rw [heq, Nat.shiftLeft_eq, Nat.mul_assoc, ← hpow]
        exact Nat.sub_eq_zero_of_le hM
      rw [hr] at hup
      have h1 := one_shiftLeft_ne_zero s
      simp [h1.symm] at hup
    · exact hm

theorem ofNat_zero : ofNat 0 = fin false 0 0 := by decide

theorem ofNat_one : ofNat 1 = fin false 1023 0 := by decide

theorem ofNat_255 : ofNat 255 = fin false 1030 0xFE00000000000 := by decide

theorem toUint32_fin_le (undef : F64 → Nat) (e : Fin 2047) (f : Fin (2 ^ 52)) (B : Nat)
    (hB : B < 2 ^ 32) (h : truncNat e f ≤ B) :
    toUint32 undef (fin false e f) = truncNat e f := by
  unfold toUint32
  simp only
  split_ifs with h0 h1
  · exact h0.symm
  · rfl
  · exact absurd ⟨trivial, lt_of_le_of_lt h hB⟩ h1

/-- The product with 255 of a finite value between 0 and 1 has its integer part at most
255, and `uint32` of it is that integer part. -/
theorem mul_255_unit (undef : F64 → Nat) (e : Fin 2047) (f : Fin (2 ^ 52))
    (h : e.val * 2 ^ 52 + f.val ≤ 1023 * 2 ^ 52) :
    toUint32 undef (mul (fin false e f) (ofNat 255)) =
        intPart (mul (fin false e f) (ofNat 255)) ∧
      intPart (mul (fin false e f) (ofNat 255)) ≤ 255 := by
  have hf := f.isLt
  have hm255 : mant (1030 : Fin 2047) (0xFE00000000000 : Fin (2 ^ 52)) = 255 * 2 ^ 45 := by
    decide
  have he255 : expo (1030 : Fin 2047) = -45 := rfl
  obtain ⟨G, hG, hmG⟩ : ∃ G : Nat, expo e + -45 = -(G : Int) ∧ mant e f * 2 ^ 45 ≤ 2 ^ G := by
    by_cases h0 : e.val = 0
    · have hmv : mant e f = f.val := by unfold mant; rw [if_pos h0]
      have hev : expo e = -1074 := by unfold expo; rw [if_pos h0]; rfl
      refine ⟨1119, by rw [hev]; rfl, ?_⟩
      rw [hmv]
      have hp : ∀ k : Nat, 97 ≤ k → (2 : Nat) ^ 52 * 2 ^ 45 ≤ 2 ^ k := fun k hk => by
        rw [← Nat.pow_add]; exact Nat.pow_le_pow_right (by decide) hk
      exact le_trans (Nat.mul_le_mul_right _ (le_of_lt hf)) (hp _ (by omega))
    · have hmv : mant e f = 2 ^ 52 + f.val := by unfold mant; rw [if_neg h0]
      have hev : expo e = (e.val : Int) - 1075 := by unfold expo; rw [if_neg h0]
      have he1 : e.val ≤ 1023 := by
        by_contra hc
        have : 1024 * 2 ^ 52 ≤ e.val * 2 ^ 52 := Nat.mul_le_mul_right _ (by omega)
        omega
      refine ⟨1120 - e.val, by rw [hev]; omega, ?_⟩
      rw [hmv]
      by_cases h23 : e.val = 1023
      · have hf0 : f.val = 0 := by rw [h23] at h; omega
        rw [hf0, h23, Nat.add_zero, ← Nat.pow_add]
      · have hk : 98 ≤ 1120 - e.val := by omega
        calc (2 ^ 52 + f.val) * 2 ^ 45 ≤ 2 ^ 53 * 2 ^ 45 :=
              Nat.mul_le_mul_right _ (by omega)
          _ = 2 ^ 98 := by rw [← Nat.pow_add]
          _ ≤ 2 ^ (1120 - e.val) := Nat.pow_le_pow_right (by decide) hk
  have hM : mant e f * (255 * 2 ^ 45) ≤ 255 * 2 ^ G := by
    calc mant e f * (255 * 2 ^ 45) = 255 * (mant e f * 2 ^ 45) := by ring
      _ ≤ 255 * 2 ^ G := Nat.mul_le_mul_left _ hmG
  obtain ⟨e2, f2, hr, ht⟩ := round_trunc_le _ G 255 (by norm_num) hM
  have hmul : mul (fin false e f) (ofNat 255) = fin false e2 f2 := by
    rw [ofNat_255]
    simp only [mul, hm255, he255, hG, Bool.xor_false]
    exact hr
  rw [hmul]
  exact ⟨toUint32_fin_le undef e2 f2 255 (by norm_num) ht, ht⟩

theorem key_zero : key (ofNat 0) = some 0 := by decide

theorem key_one : key (ofNat 1) = some (1023 * 2 ^ 52) := by decide

theorem toUint32_zero (undef : F64 → Nat) (s : Bool) :
    toUint32 undef (fin s 0 0) = 0 ∧ intPart (fin s 0 0) = 0 := by
  have h : truncNat 0 0 = 0 := truncNat_sub 0
  unfold toUint32 intPart
  simp only [h, if_true, and_self]

theorem mul_zero_255 (s : Bool) : mul (fin s 0 0) (ofNat 255) = fin s 0 0 := by
  cases s <;> decide

theorem channel_low (undef : F64 → Nat) :
    toUint32 undef (mul (ofNat 0) (ofNat 255)) = 0 := by
  rw [ofNat_zero, mul_zero_255]
  exact (toUint32_zero undef false).1

set_option maxRecDepth 10000 in
theorem channel_high (undef : F64 → Nat) :
    toUint32 undef (mul (ofNat 1) (ofNat 255)) = 255 := by
  have h : mul (ofNat 1) (ofNat 255) = fin false 1030 0xFE00000000000 := by decide
  have ht : truncNat (1030 : Fin 2047) (0xFE00000000000 : Fin (2 ^ 52)) = 255 := by decide
  rw [h, toUint32_fin_le undef _ _ 255 (by norm_num) (le_of_eq ht), ht]

/-- One channel of `RGBA`: the three cases of `clamp`, and the NaN case. -/
theorem channel64 (undef : F64 → Nat) (v : F64) :
    (lt v (ofNat 0) = true → toUint32 undef (mul (clamp64 v) (ofNat 255)) = 0) ∧
    (gt v (ofNat 1) = true → toUint32 undef (mul (clamp64 v) (ofNat 255)) = 255) ∧
    (le (ofNat 0) v = true → le v (ofNat 1) = true →
      toUint32 undef (mul (clamp64 v) (ofNat 255)) = intPart (mul v (ofNat 255))) ∧
    (v.isNaN = false → toUint32 undef (mul (clamp64 v) (ofNat 255)) ≤ 255) ∧
    (v.isNaN = true → toUint32 undef (mul (clamp64 v) (ofNat 255)) = undef nan % 2 ^ 32) := by
  cases v with
  | nan =>
    have hc : clamp64 nan = nan := by decide
    have hm : mul nan (ofNat 255) = nan := by decide
    rw [hc, hm]
    refine ⟨fun h => ?_, fun h => ?_, fun h => ?_, fun h => ?_, fun _ => rfl⟩
    · exact absurd h (by decide)
    · exact absurd h (by decide)
    · exact absurd h (by decide)
    · exact absurd h (by decide)
  | inf s =>
    cases s with
    | false =>
      have hc : clamp64 (inf false) = ofNat 1 := by decide
      rw [hc, channel_high]
      refine ⟨fun h => ?_, fun _ => rfl, fun _ h => ?_, fun _ => le_rfl, fun h => ?_⟩
      · exact absurd h (by decide)
      · exact absurd h (by decide)
      · exact absurd h (by decide)
    | true =>
      have hc : clamp64 (inf true) = ofNat 0 := by decide
      rw [hc, channel_low]
      refine ⟨fun _ => rfl, fun h => ?_, fun h => ?_, fun _ => Nat.zero_le _, fun h => ?_⟩
      · exact absurd h (by decide)
      · exact absurd h (by decide)
      · exact absurd h (by decide)
  | fin s e f =>
    have hf := f.isLt
    have hk : key (fin s e f) =
        some ((if s then -1 else 1) * ((e.val * 2 ^ 52 + f.val : Nat) : Int)) := rfl
    have hlt : lt (fin s e f) (ofNat 0) =
        decide ((if s then -1 else 1) * ((e.val * 2 ^ 52 + f.val : Nat) : Int) < 0) := by
      simp only [lt, hk, key_zero]
    have hgt : gt (fin s e f) (ofNat 1) =
        decide ((1023 * 2 ^ 52 : Int) <
          (if s then -1 else 1) * ((e.val * 2 ^ 52 + f.val : Nat) : Int)) := by
      simp only [gt, lt, hk, key_one]
    have hle0 : le (ofNat 0) (fin s e f) =
        decide (0 ≤ (if s then -1 else 1) * ((e.val * 2 ^ 52 + f.val : Nat) : Int)) := by
      simp only [le, hk, key_zero]
    have hle1 : le (fin s e f) (ofNat 1) =
        decide ((if s then -1 else 1) * ((e.val * 2 ^ 52 + f.val : Nat) : Int) ≤
          (1023 * 2 ^ 52 : Int)) := by
      simp only [le, hk, key_one]
    have hnan : (fin s e f).isNaN = false := rfl
    generalize hK : e.val * 2 ^ 52 + f.val = K at hlt hgt hle0 hle1
    obtain ⟨k, hkdef⟩ : ∃ k : Int, (if s then -1 else 1) * (K : Int) = k := ⟨_, rfl⟩
    have hks : (s = false ∧ k = K) ∨ (s = true ∧ k = -(K : Int)) := by
      cases s
      · left; exact ⟨rfl, by rw [← hkdef]; simp⟩
      · right; exact ⟨rfl, by rw [← hkdef]; simp⟩
    have h1023 : (1023 * 2 ^ 52 : Int) = 4607182418800017408 := by norm_num
    rw [hkdef] at hlt hgt hle0 hle1
    rw [h1023] at hgt hle1
    by_cases h1 : k < 0
    · have hc : clamp64 (fin s e f) = ofNat 0 := by
        unfold clamp64; rw [hlt, if_pos (decide_eq_true h1)]
      rw [hc, channel_low]
      refine ⟨fun _ => rfl, fun h => ?_, fun h => ?_, fun _ => Nat.zero_le _, fun h => ?_⟩
      · rw [hgt, decide_eq_true_eq] at h; omega
      · rw [hle0, decide_eq_true_eq] at h; omega
      · rw [hnan] at h; exact absurd h (by decide)
    · by_cases h2 : (4607182418800017408 : Int) < k
      · have hc : clamp64 (fin s e f) = ofNat 1 := by
          unfold clamp64
          rw [hlt, if_neg (by rw [decide_eq_true_eq]; exact h1), hgt,
            if_pos (decide_eq_true h2)]
        rw [hc, channel_high]
        refine ⟨fun h => ?_, fun _ => rfl, fun _ h => ?_, fun _ => le_rfl, fun h => ?_⟩
        · rw [hlt, decide_eq_true_eq] at h; exact absurd h h1
        · rw [hle1, decide_eq_true_eq] at h; omega
        · rw [hnan] at h; exact absurd h (by decide)
      · have hc : clamp64 (fin s e f) = fin s e f := by
          unfold clamp64
          rw [hlt, if_neg (by rw [decide_eq_true_eq]; exact h1), hgt,
            if_neg (by rw [decide_eq_true_eq]; exact h2)]
        rw [hc]
        have hres : toUint32 undef (mul (fin s e f) (ofNat 255)) =
              intPart (mul (fin s e f) (ofNat 255)) ∧
            intPart (mul (fin s e f) (ofNat 255)) ≤ 255 := by
          rcases hks with ⟨hs, hkK⟩ | ⟨hs, hkK⟩
          · subst hs
            apply mul_255_unit undef e f
            rw [hK]
            have : (1023 * 2 ^ 52 : Nat) = 4607182418800017408 := by norm_num
            rw [this]
            omega
          · subst hs
            have hK0 : K = 0 := by omega
            have hp : 0 < 2 ^ 52 := Nat.two_pow_pos 52
            have he0 : e = 0 := by
              apply Fin.ext
              rw [← hK] at hK0
              exact (Nat.mul_eq_zero.1 (Nat.eq_zero_of_add_eq_zero_right hK0)).resolve_right hp.ne'
            have hf0 : f = 0 := by
              apply Fin.ext
              rw [← hK] at hK0
              exact Nat.eq_zero_of_add_eq_zero_left hK0
            rw [he0, hf0, mul_zero_255]
            exact ⟨(toUint32_zero undef true).1.trans (toUint32_zero undef true).2.symm,
              by rw [(toUint32_zero undef true).2]; exact Nat.zero_le _⟩
        refine ⟨fun h => ?_, fun h => ?_, fun _ _ => hres.1, fun _ => ?_, fun h => ?_⟩
        · rw [hlt, decide_eq_true_eq] at h; exact absurd h h1
        · rw [hgt, decide_eq_true_eq] at h; exact absurd h h2
        · rw [hres.1]; exact hres.2
        · rw [hnan] at h; exact absurd h (by decide)

end F64

theorem Color64_eq_self (c : Color64) : Color64.eq c c = !c.hasNaN := by
  unfold Color64.eq Color64.hasNaN
  rw [F64.eq_self, F64.eq_self, F64.eq_self]
  cases c.R.isNaN <;> cases c.G.isNaN <;> cases c.B.isNaN <;> rfl

theorem Color64_Add_comm (a b : Color64) : a.Add b = b.Add a := by
  unfold Color64.Add
  rw [F64.add_comm a.R, F64.add_comm a.G, F64.add_comm a.B]

theorem Color64_eq_iff (c d : Color64) :
    Color64.eq c d = true ↔
      F64.eq c.R d.R = true ∧ F64.eq c.G d.G = true ∧ F64.eq c.B d.B = true := by
  unfold Color64.eq
  rw [Bool.and_eq_true, Bool.and_eq_true, and_assoc]

theorem Color64_hasNaN_iff (c : Color64) :
    c.hasNaN = false ↔ c.R.isNaN = false ∧ c.G.isNaN = false ∧ c.B.isNaN = false := by
  unfold Color64.hasNaN
  rw [Bool.or_eq_false_iff, Bool.or_eq_false_iff, and_assoc]

theorem F64_eq_true_of (x y : F64) (h : F64.eq x y = !y.isNaN) :
    F64.eq x y = true ↔ y.isNaN = false := by
  rw [h]; cases y.isNaN <;> simp

/-! ## The claims on `float64` arithmetic -/

/-- C9: each of `r`, `g`, `b` returned by `RGBA` is 0 when the channel is below 0, 255
when it is above 1, and the integer part of the `float64` product of the channel and
255 when the channel is between 0 and 1; so it lies in `0..255` for every channel that
is not a NaN.  (For a NaN channel, which is in none of the three cases, the result is
what the implementation makes of `uint32(NaN)`.) -/
theorem RGBA64_clamps_and_scales (undef : F64 → Nat) (c : Color64) :
    ((F64.lt c.R (F64.ofNat 0) = true → (c.RGBA undef).r = 0) ∧
      (F64.gt c.R (F64.ofNat 1) = true → (c.RGBA undef).r = 255) ∧
      (F64.le (F64.ofNat 0) c.R = true → F64.le c.R (F64.ofNat 1) = true →
        (c.RGBA undef).r = F64.intPart (F64.mul c.R (F64.ofNat 255))) ∧
      (c.R.isNaN = false → (c.RGBA undef).r ≤ 255) ∧
      (c.R.isNaN = true → (c.RGBA undef).r = undef F64.nan % 2 ^ 32)) ∧
    ((F64.lt c.G (F64.ofNat 0) = true → (c.RGBA undef).g = 0) ∧
      (F64.gt c.G (F64.ofNat 1) = true → (c.RGBA undef).g = 255) ∧
      (F64.le (F64.ofNat 0) c.G = true → F64.le c.G (F64.ofNat 1) = true →
        (c.RGBA undef).g = F64.intPart (F64.mul c.G (F64.ofNat 255))) ∧
      (c.G.isNaN = false → (c.RGBA undef).g ≤ 255) ∧
      (c.G.isNaN = true → (c.RGBA undef).g = undef F64.nan % 2 ^ 32)) ∧
    ((F64.lt c.B (F64.ofNat 0) = true → (c.RGBA undef).b = 0) ∧
      (F64.gt c.B (F64.ofNat 1) = true → (c.RGBA undef).b = 255) ∧
      (F64.le (F64.ofNat 0) c.B = true → F64.le c.B (F64.ofNat 1) = true →
        (c.RGBA undef).b = F64.intPart (F64.mul c.B (F64.ofNat 255))) ∧
      (c.B.isNaN = false → (c.RGBA undef).b ≤ 255) ∧
      (c.B.isNaN = true → (c.RGBA undef).b = undef F64.nan % 2 ^ 32)) :=
  ⟨F64.channel64 undef c.R, F64.channel64 undef c.G, F64.channel64 undef c.B⟩

set_option maxRecDepth 10000 in
/-- Instances of C9: `{R: -1, G: 0.5, B: 2}` gives `r = 0`, `g = 127`, `b = 255`; the
channel `float64(1)/255`, whose product with 255 rounds to 1, gives 1; an infinite
channel gives 0 or 255. -/
theorem RGBA64_clamps_and_scales_witness :
    (Color64.RGBA (fun _ => 0)
      ⟨F64.ofBits 0xBFF0000000000000, F64.ofBits 0x3FE0000000000000,
        F64.ofBits 0x4000000000000000⟩).r = 0 ∧
    (Color64.RGBA (fun _ => 0)
      ⟨F64.ofBits 0xBFF0000000000000, F64.ofBits 0x3FE0000000000000,
        F64.ofBits 0x4000000000000000⟩).g = 127 ∧
    (Color64.RGBA (fun _ => 0)
      ⟨F64.ofBits 0xBFF0000000000000, F64.ofBits 0x3FE0000000000000,
        F64.ofBits 0x4000000000000000⟩).b = 255 ∧
    (Color64.RGBA (fun _ => 0)
      ⟨F64.ofBits 0x3F70101010101010, F64.inf true, F64.inf false⟩).r = 1 ∧
    (Color64.RGBA (fun _ => 0)
      ⟨F64.ofBits 0x3F70101010101010, F64.inf true, F64.inf false⟩).g = 0 ∧
    (Color64.RGBA (fun _ => 0)
      ⟨F64.ofBits 0x3F70101010101010, F64.inf true, F64.inf false⟩).b = 255 := by
  have h := RGBA64_clamps_and_scales (fun _ => 0)
    ⟨F64.ofBits 0xBFF0000000000000, F64.ofBits 0x3FE0000000000000,
      F64.ofBits 0x4000000000000000⟩
  have k := RGBA64_clamps_and_scales (fun _ => 0)
    ⟨F64.ofBits 0x3F70101010101010, F64.inf true, F64.inf false⟩
  refine ⟨h.1.1 (by decide), ?_, h.2.2.2.1 (by decide), ?_, k.2.1.1 (by decide),
    k.2.2.2.1 (by decide)⟩
  · rw [h.2.1.2.2.1 (by decide) (by decide)]; decide
  · rw [k.1.2.2.1 (by decide) (by decide)]; decide

/-- C14, amended: `Add` is the component-wise `float64` sum, and `a.Add(b) == b.Add(a)`
holds exactly when no channel of the sum is a NaN. -/
theorem Add64_comm_sum (a b : Color64) :
    a.Add b = ⟨F64.add a.R b.R, F64.add a.G b.G, F64.add a.B b.B⟩ ∧
      (Color64.eq (a.Add b) (b.Add a) = true ↔ (a.Add b).hasNaN = false) := by
  refine ⟨rfl, ?_⟩
  rw [← Color64_Add_comm a b, Color64_eq_self]
  cases (a.Add b).hasNaN <;> simp

/-- C14 as stated fails: with `R` channels `+Inf` and `-Inf` the sum is a NaN, and
`a.Add(b) == b.Add(a)` is false. -/
theorem Add64_comm_counterexample :
    Color64.eq
      (Color64.Add ⟨F64.inf false, F64.ofNat 0, F64.ofNat 0⟩
        ⟨F64.inf true, F64.ofNat 0, F64.ofNat 0⟩)
      (Color64.Add ⟨F64.inf true, F64.ofNat 0, F64.ofNat 0⟩
        ⟨F64.inf false, F64.ofNat 0, F64.ofNat 0⟩) = false := by
  decide

set_option maxRecDepth 10000 in
/-- Instances of the amended C14: `MaxFloat64 + MaxFloat64` overflows to `+Inf` and the
two orders are `==`; `1 + 2` is `3` in both orders. -/
theorem Add64_comm_sum_witness :
    Color64.Add ⟨F64.ofBits 0x7FEFFFFFFFFFFFFF, F64.ofNat 1, F64.ofNat 0⟩
        ⟨F64.ofBits 0x7FEFFFFFFFFFFFFF, F64.ofNat 2, F64.ofNat 0⟩ =
      ⟨F64.inf false, F64.ofNat 3, F64.ofNat 0⟩ ∧
    Color64.eq
      (Color64.Add ⟨F64.ofBits 0x7FEFFFFFFFFFFFFF, F64.ofNat 1, F64.ofNat 0⟩
        ⟨F64.ofBits 0x7FEFFFFFFFFFFFFF, F64.ofNat 2, F64.ofNat 0⟩)
      (Color64.Add ⟨F64.ofBits 0x7FEFFFFFFFFFFFFF, F64.ofNat 2, F64.ofNat 0⟩
        ⟨F64.ofBits 0x7FEFFFFFFFFFFFFF, F64.ofNat 1, F64.ofNat 0⟩) = true :=
  ⟨by decide,
   (Add64_comm_sum ⟨F64.ofBits 0x7FEFFFFFFFFFFFFF, F64.ofNat 1, F64.ofNat 0⟩
      ⟨F64.ofBits 0x7FEFFFFFFFFFFFFF, F64.ofNat 2, F64.ofNat 0⟩).2.2 (by decide)⟩

/-- C15, amended: `Black` is `{0, 0, 0}`, and `a.Add(Black) == a` and
`Black.Add(a) == a` hold exactly when no channel of `a` is a NaN. -/
theorem Add64_Black (a : Color64) :
    (Color64.eq (a.Add Black64) a = true ↔ a.hasNaN = false) ∧
      (Color64.eq (Black64.Add a) a = true ↔ a.hasNaN = false) ∧
      Black64 = ⟨F64.ofNat 0, F64.ofNat 0, F64.ofNat 0⟩ := by
  have key : Color64.eq (a.Add Black64) a = true ↔ a.hasNaN = false := by
    rw [Color64_eq_iff, Color64_hasNaN_iff]
    simp only [Color64.Add, Black64, F64.ofNat_zero]
    rw [F64_eq_true_of _ _ (F64.add_zero_eq a.R), F64_eq_true_of _ _ (F64.add_zero_eq a.G),
      F64_eq_true_of _ _ (F64.add_zero_eq a.B)]
  refine ⟨key, ?_, rfl⟩
  rw [Color64_Add_comm]
  exact key

/-- C15 as stated fails: for a colour with a NaN channel `a.Add(Black) == a` is
false. -/
theorem Add64_Black_counterexample :
    Color64.eq (Color64.Add ⟨F64.nan, F64.ofNat 0, F64.ofNat 0⟩ Black64)
      ⟨F64.nan, F64.ofNat 0, F64.ofNat 0⟩ = false := by
  decide

set_option maxRecDepth 10000 in
/-- Instances of the amended C15: the colour `{0.5, -0, +Inf}` is `==` to its sum with
`Black` on either side (the channel `-0` becomes `+0`, which is `==` to `-0`). -/
theorem Add64_Black_witness :
    Color64.eq
      (Color64.Add ⟨F64.ofBits 0x3FE0000000000000, F64.ofBits 0x8000000000000000,
        F64.inf false⟩ Black64)
      ⟨F64.ofBits 0x3FE0000000000000, F64.ofBits 0x8000000000000000, F64.inf false⟩ = true ∧
    Color64.eq
      (Color64.Add Black64 ⟨F64.ofBits 0x3FE0000000000000, F64.ofBits 0x8000000000000000,
        F64.inf false⟩)
      ⟨F64.ofBits 0x3FE0000000000000, F64.ofBits 0x8000000000000000, F64.inf false⟩ = true :=
  ⟨(Add64_Black _).1.2 (by decide), (Add64_Black _).2.1.2 (by decide)⟩

/-- C16, amended: `Mul` is the component-wise `float64` product, and
`a.Mul(Color{1, 1, 1}) == a` holds exactly when no channel of `a` is a NaN. -/
theorem Mul64_product_one (a b : Color64) :
    a.Mul b = ⟨F64.mul a.R b.R, F64.mul a.G b.G, F64.mul a.B b.B⟩ ∧
      (Color64.eq (a.Mul ⟨F64.ofNat 1, F64.ofNat 1, F64.ofNat 1⟩) a = true ↔
        a.hasNaN = false) := by
  refine ⟨rfl, ?_⟩
  have h : a.Mul ⟨F64.ofNat 1, F64.ofNat 1, F64.ofNat 1⟩ = a := by
    simp only [Color64.Mul, F64.ofNat_one, F64.mul_one]
  rw [h, Color64_eq_self]
  cases a.hasNaN <;> simp

/-- C16 as stated fails: `Mul` of `{+Inf, 0, 0}` and `{0, 0, 0}` has a NaN channel, and
for that colour `a.Mul(Color{1, 1, 1}) == a` is false. -/
theorem Mul64_product_one_counterexample :
    Color64.Mul ⟨F64.inf false, F64.ofNat 0, F64.ofNat 0⟩ Black64 =
        ⟨F64.nan, F64.ofNat 0, F64.ofNat 0⟩ ∧
      Color64.eq
        (Color64.Mul ⟨F64.nan, F64.ofNat 0, F64.ofNat 0⟩
          ⟨F64.ofNat 1, F64.ofNat 1, F64.ofNat 1⟩)
        ⟨F64.nan, F64.ofNat 0, F64.ofNat 0⟩ = false := by
  decide

set_option maxRecDepth 10000 in
/-- Instances of the amended C16: `{0.5, -0, +Inf}` is `==` to its product with
`{1, 1, 1}`, and `0.5 * 0.5` is `0.25`. -/
theorem Mul64_product_one_witness :
    Color64.eq
      (Color64.Mul ⟨F64.ofBits 0x3FE0000000000000, F64.ofBits 0x8000000000000000,
        F64.inf false⟩ ⟨F64.ofNat 1, F64.ofNat 1, F64.ofNat 1⟩)
      ⟨F64.ofBits 0x3FE0000000000000, F64.ofBits 0x8000000000000000, F64.inf false⟩ = true ∧
    F64.mul (F64.ofBits 0x3FE0000000000000) (F64.ofBits 0x3FE0000000000000) =
      F64.ofBits 0x3FD0000000000000 :=
  ⟨(Mul64_product_one ⟨F64.ofBits 0x3FE0000000000000, F64.ofBits 0x8000000000000000,
      F64.inf false⟩ Black64).2.2 (by decide), by decide⟩

end Frosty
